import Mathlib

/-!
Verification development for the tolchain node core.

The definitions below are a shallow embedding of the Go sources:
the state database (storage/statedb.go), the transaction types and
signature checks (core transaction file), the executor (vm executor),
the domain handlers (vm/modules/economy, asset, session, market),
the mempool (core/mempool.go), the chain store (core blockchain file)
and the block-synchronisation loop (network/sync.go).

Go maps are embedded as association lists whose keys are kept unique by
the insertion operation; map order never matters to the embedded code
because every order-sensitive use in the source sorts its keys first.
Machine integers (uint64) are embedded as Nat with explicit wrap-around
(mod 2 ^ 64) exactly where the Go code can overflow; guarded operations
keep plain Nat arithmetic, matching the Go guards.
-/

set_option maxRecDepth 8000

namespace Tolchain

/-- Byte strings of the Go code, modelled as lists of naturals. -/
abbrev Bytes := List Nat

/-- Errors of the embedded code: the sentinel core.ErrNotFound plus
descriptive errors, mirroring how the Go code distinguishes
errors.Is(err, core.ErrNotFound) from everything else. -/
inductive Err where
  | notFound
  | other (msg : String)
deriving Repr, DecidableEq

/-- 2 ^ 64, the size of the uint64 value space. -/
def u64 : Nat := 2 ^ 64

/-- math.MaxUint64. -/
def u64max : Nat := 2 ^ 64 - 1

/-- Wrapping uint64 addition (Go + on uint64). -/
def uadd (a b : Nat) : Nat := (a + b) % u64

/-- Wrapping uint64 multiplication (Go * on uint64). -/
def umul (a b : Nat) : Nat := (a * b) % u64

/-- First-match lookup in an association list (the observable content of a
Go map). -/
def mapLookup {α : Type} (k : String) : List (String × α) → Option α
  | [] => none
  | e :: t => if e.1 = k then some e.2 else mapLookup k t

/-- Go map assignment m[k] = v: the new binding replaces any old one. -/
def mapInsert {α : Type} (k : String) (v : α) (m : List (String × α)) :
    List (String × α) :=
  (k, v) :: m.filter (fun e => e.1 ≠ k)

/-- Go delete(m, k). -/
def mapErase {α : Type} (k : String) (m : List (String × α)) :
    List (String × α) :=
  m.filter (fun e => e.1 ≠ k)

/-- Go set insertion m[k] = true for a map[string]bool used as a set. -/
def setInsert (k : String) (l : List String) : List String :=
  if k ∈ l then l else k :: l

theorem mapLookup_mapInsert {α : Type} (k k0 : String) (v : α) (m : List (String × α)) :
    mapLookup k (mapInsert k0 v m) = if k0 = k then some v else mapLookup k m := by
  induction m with
  | nil => simp [mapInsert, mapLookup]
  | cons e t ih =>
    by_cases h : e.1 = k0
    · by_cases hk : k0 = k <;>
        simp_all [mapInsert, mapLookup, List.filter]
    · by_cases hk : e.1 = k <;> by_cases h2 : k0 = k <;>
        simp_all [mapInsert, mapLookup, List.filter]

theorem mapLookup_mapErase {α : Type} (k k0 : String) (m : List (String × α)) :
    mapLookup k (mapErase k0 m) = if k0 = k then none else mapLookup k m := by
  induction m with
  | nil => simp [mapErase, mapLookup]
  | cons e t ih =>
    by_cases h : e.1 = k0 <;> by_cases hk : e.1 = k <;> by_cases h2 : k0 = k <;>
      simp_all [mapErase, mapLookup, List.filter]

theorem mapLookup_eq_none_iff {α : Type} (k : String) (m : List (String × α)) :
    mapLookup k m = none ↔ k ∉ m.map Prod.fst := by
  induction m with
  | nil => simp [mapLookup]
  | cons e t ih =>
    by_cases h : e.1 = k <;> simp_all [mapLookup, eq_comm]

/-- Character-list prefix test (Go strings.HasPrefix on the bytes). -/
def pfxOf (p k : List Char) : Bool :=
  match p, k with
  | [], _ => true
  | _ :: _, [] => false
  | c :: cs, d :: ds => c = d && pfxOf cs ds

/-- String prefix test used by the DB iterator. -/
def strPfx (p k : String) : Bool := pfxOf p.data k.data

/-- The sixteen lowercase hex digits: digits 0 to 9 then letters a to f,
built from their character codes. -/
def hexChars : List Char :=
  (List.range 16).map (fun n => Char.ofNat (if n < 10 then 48 + n else 87 + n))

/-- Hex digit for a value, taken mod 16. -/
def hexDigit (n : Nat) : Char := hexChars.getD (n % 16) '0'

/-- Big-endian hex rendering with a fixed digit count. -/
def toHexAux : Nat → Nat → List Char → List Char
  | 0, _, acc => acc
  | n + 1, v, acc => toHexAux n (v / 16) (hexDigit v :: acc)

/-- Modelled from the spec: SHA-256 (Go crypto/sha256, outside src/) as a
deterministic digest of the byte stream, rendered as 64 lowercase hex
characters, exactly the shape crypto.Hash returns. -/
def hashHex (data : Bytes) : String :=
  String.mk (toHexAux 64 (data.foldl (fun acc b => (acc * 131 + b + 17) % 2 ^ 256) 7) [])

theorem toHexAux_length (n : Nat) :
    ∀ (v : Nat) (acc : List Char), (toHexAux n v acc).length = n + acc.length := by
  induction n with
  | zero => intro v acc; simp [toHexAux]
  | succ m ih =>
    intro v acc
    simp [toHexAux, ih]
    omega

theorem hexDigit_mem (n : Nat) : hexDigit n ∈ hexChars := by
  have h : n % 16 < 16 := Nat.mod_lt _ (by norm_num)
  have : ∀ r < 16, hexChars.getD r '0' ∈ hexChars := by decide
  exact this _ h

theorem toHexAux_chars (n : Nat) :
    ∀ (v : Nat) (acc : List Char), (∀ c ∈ acc, c ∈ hexChars) →
      ∀ c ∈ toHexAux n v acc, c ∈ hexChars := by
  induction n with
  | zero => intro v acc h; simpa [toHexAux] using h
  | succ m ih =>
    intro v acc h
    refine ih _ _ ?_
    intro c hc
    rcases List.mem_cons.mp hc with h1 | h2
    · exact h1 ▸ hexDigit_mem v
    · exact h c h2

theorem hashHex_length (data : Bytes) : (hashHex data).length = 64 := by
  simp [hashHex, String.length, toHexAux_length]

theorem hashHex_chars (data : Bytes) : ∀ c ∈ (hashHex data).data, c ∈ hexChars := by
  simp only [hashHex]
  exact toHexAux_chars 64 _ [] (by simp)

/-- Big-endian uint32 length field, as written by binary.BigEndian.PutUint32
on uint32(len(x)). -/
def u32be (n : Nat) : Bytes :=
  [n / 2 ^ 24 % 256, n / 2 ^ 16 % 256, n / 2 ^ 8 % 256, n % 256]

/-- One length-prefixed key-value pair of the state-root byte stream. -/
def encEntry (k : String) (v : Bytes) : Bytes :=
  u32be k.length ++ k.data.map Char.toNat ++ u32be v.length ++ v

/-- The five registered state prefixes of storage/statedb.go, in
registration order. -/
def statePfxs : List String := ["acct:", "asset:", "tmpl:", "sess:", "list:"]

/-- One saved snapshot: a deep copy of the write buffer and tombstone set
(stateSnapshot in storage/statedb.go). -/
structure Snap where
  dirty : List (String × Bytes)
  deleted : List String
deriving Repr, DecidableEq

/-- StateDB of storage/statedb.go: backing KV store, in-memory write
buffer, tombstone set and snapshot stack. Deep copies are implicit:
Lean values cannot alias. -/
structure StateDB where
  db : List (String × Bytes)
  dirty : List (String × Bytes)
  deleted : List String
  snapshots : List Snap
deriving Repr, DecidableEq

/-- A StateDB over an empty backing store with empty buffers. -/
def emptyState : StateDB := ⟨[], [], [], []⟩

/-- StateDB.get: tombstone check, then buffer, then backing store. -/
def StateDB.rawGet (s : StateDB) (key : String) : Except Err Bytes :=
  if key ∈ s.deleted then .error .notFound
  else match mapLookup key s.dirty with
    | some v => .ok v
    | none => match mapLookup key s.db with
      | some v => .ok v
      | none => .error .notFound

/-- StateDB.set: clear any tombstone and write the buffer. -/
def StateDB.rawSet (s : StateDB) (key : String) (val : Bytes) : StateDB :=
  { s with deleted := s.deleted.filter (fun k => k ≠ key),
           dirty := mapInsert key val s.dirty }

/-- StateDB.del: clear the buffer entry and add a tombstone. -/
def StateDB.rawDel (s : StateDB) (key : String) : StateDB :=
  { s with dirty := mapErase key s.dirty,
           deleted := setInsert key s.deleted }

/-- StateDB.Snapshot: push a copy of buffer and tombstones, return the new
index (Go returns len(snapshots) - 1 after the append; the error is
always nil in the source). -/
def StateDB.snapshot (s : StateDB) : Int × StateDB :=
  (s.snapshots.length,
   { s with snapshots := s.snapshots ++ [⟨s.dirty, s.deleted⟩] })

/-- StateDB.RevertToSnapshot: restore buffer and tombstones from snapshot
id and truncate the stack to the snapshots below it. On a bad id the Go
method returns an error and leaves the state untouched. -/
def StateDB.revertToSnapshot (s : StateDB) (id : Int) : Except Err Unit × StateDB :=
  if h : 0 ≤ id ∧ id < s.snapshots.length then
    let snap := s.snapshots.get ⟨id.toNat, by omega⟩
    (.ok (), { s with dirty := snap.dirty, deleted := snap.deleted,
                      snapshots := s.snapshots.take id.toNat })
  else (.error (.other "invalid snapshot id"), s)

/-- StateDB.Commit: flush buffer writes and tombstones to the backing
store in one batch (sets first, then deletes, as the batch is built),
then clear buffer, tombstones and snapshot stack. -/
def StateDB.commit (s : StateDB) : StateDB :=
  { db := s.deleted.foldl (fun m k => mapErase k m)
            (s.dirty.foldl (fun m e => mapInsert e.1 e.2 m) s.db),
    dirty := [], deleted := [], snapshots := [] }

/-- Step 1 and 2 of ComputeRoot: persisted entries under the registered
prefixes, overlaid with the write buffer, minus tombstones, as one map. -/
def mergedState (db dirty : List (String × Bytes)) (deleted : List String) :
    List (String × Bytes) :=
  deleted.foldl (fun m k => mapErase k m)
    (dirty.foldl (fun m e => mapInsert e.1 e.2 m)
      (statePfxs.foldl
        (fun acc p => (db.filter (fun e => strPfx p e.1)).foldl
          (fun m e => mapInsert e.1 e.2 m) acc) []))

/-- Steps 3 to 5 of ComputeRoot: sort the keys, emit the length-prefixed
stream, hash it. -/
def rootOf (db dirty : List (String × Bytes)) (deleted : List String) : String :=
  let merged := mergedState db dirty deleted
  let keys := List.insertionSort (fun a b : String => a ≤ b) (merged.map Prod.fst)
  hashHex (keys.flatMap (fun k => encEntry k ((mapLookup k merged).getD [])))

/-- StateDB.ComputeRoot: deterministic hash of the full observable state;
reads db, buffer and tombstones only, never the snapshot stack. -/
def StateDB.computeRoot (s : StateDB) : String := rootOf s.db s.dirty s.deleted

/-! ### Canonical value encodings

Entities are persisted as json.Marshal bytes. Go encoding/json with the
fixed struct field order of the source (and sorted map keys) is a
deterministic injective encoding; it is modelled here by explicit
length-prefixed byte encodings with matching decoders. -/

/-- Length-prefixed string encoding. -/
def encStr (s : String) : Bytes := s.data.length :: s.data.map Char.toNat

/-- Decoder for encStr; returns the string and the remaining bytes. -/
def decStr : Bytes → Option (String × Bytes)
  | [] => none
  | n :: rest =>
    if n ≤ rest.length then
      some (String.mk ((rest.take n).map Char.ofNat), rest.drop n)
    else none

theorem decStr_encStr (s : String) (r : Bytes) :
    decStr (encStr s ++ r) = some (s, r) := by
  have hlen : (s.data.map Char.toNat).length = s.data.length := by simp
  simp only [encStr, decStr, List.cons_append]
  rw [← hlen]
  rw [List.take_left, List.drop_left]
  simp only [List.map_map, hlen, List.length_append, le_add_iff_nonneg_right,
    Nat.zero_le, if_true]
  have hmap : List.map (Char.ofNat ∘ Char.toNat) s.data = s.data := by
    simp [Function.comp_def, Char.ofNat_toNat]
  rw [hmap]

/-- Sign-magnitude integer encoding (int64 fields such as timestamps). -/
def encInt (i : Int) : Bytes := [if i < 0 then 1 else 0, i.natAbs]

/-- Decoder for encInt. -/
def decInt : Bytes → Option (Int × Bytes)
  | sg :: m :: rest =>
    if sg = 1 then some (-(m : Int), rest)
    else if sg = 0 then some ((m : Int), rest) else none
  | _ => none

theorem decInt_encInt (i : Int) (r : Bytes) :
    decInt (encInt i ++ r) = some (i, r) := by
  by_cases h : i < 0
  · have hv : (-(i.natAbs : Int)) = i := by omega
    simp only [encInt, if_pos h, List.cons_append, decInt, if_pos rfl, hv]
    simp
  · have hv : ((i.natAbs : Int)) = i := by omega
    have h01 : (0 : Nat) ≠ 1 := by decide
    simp only [encInt, if_neg h, List.cons_append, decInt, if_neg h01, if_pos rfl, hv]
    simp

theorem decInt_encInt0 (i : Int) : decInt (encInt i) = some (i, []) := by
  simpa using decInt_encInt i []

/-- Boolean encoding. -/
def encBool (b : Bool) : Bytes := [if b then 1 else 0]

/-- Decoder for encBool. -/
def decBool : Bytes → Option (Bool × Bytes)
  | n :: rest => if n = 1 then some (true, rest)
                 else if n = 0 then some (false, rest) else none
  | _ => none

theorem decBool_encBool (b : Bool) (r : Bytes) :
    decBool (encBool b ++ r) = some (b, r) := by
  cases b <;> simp [encBool, decBool]

/-- List-of-strings encoding: the count followed by each element. -/
def encStrs (l : List String) : Bytes := l.length :: l.flatMap encStr

/-- Count-driven decoder for string lists. -/
def decStrsN : Nat → Bytes → Option (List String × Bytes)
  | 0, b => some ([], b)
  | n + 1, b =>
    match decStr b with
    | none => none
    | some (s, rest) =>
      match decStrsN n rest with
      | none => none
      | some (ss, rest2) => some (s :: ss, rest2)

theorem decStrsN_encStrs (l : List String) (r : Bytes) :
    decStrsN l.length (l.flatMap encStr ++ r) = some (l, r) := by
  induction l generalizing r with
  | nil => simp [decStrsN]
  | cons s t ih =>
    simp only [List.length_cons, List.flatMap_cons, List.append_assoc, decStrsN,
      decStr_encStr, ih]

/-- String-to-nat map encoding (the session outcome), count then pairs. -/
def encSNMap (l : List (String × Nat)) : Bytes :=
  l.length :: l.flatMap (fun e => encStr e.1 ++ [e.2])

/-- Count-driven decoder for string-to-nat maps. -/
def decSNMapN : Nat → Bytes → Option (List (String × Nat) × Bytes)
  | 0, b => some ([], b)
  | n + 1, b =>
    match decStr b with
    | none => none
    | some (s, rest) =>
      match rest with
      | [] => none
      | v :: rest1 =>
        match decSNMapN n rest1 with
        | none => none
        | some (ps, rest2) => some ((s, v) :: ps, rest2)

theorem decSNMapN_encSNMap (l : List (String × Nat)) (r : Bytes) :
    decSNMapN l.length (l.flatMap (fun e => encStr e.1 ++ [e.2]) ++ r) = some (l, r) := by
  induction l generalizing r with
  | nil => simp [decSNMapN]
  | cons e t ih =>
    simp only [List.length_cons, List.flatMap_cons, List.append_assoc, decSNMapN,
      List.cons_append, decStr_encStr, List.nil_append, ih]

/-- core.Account. -/
structure Account where
  address : String
  balance : Nat
  nonce : Nat
deriving Repr, DecidableEq

/-- json.Marshal of an Account. -/
def encAccount (a : Account) : Bytes := encStr a.address ++ [a.balance, a.nonce]

/-- json.Unmarshal into an Account. -/
def decAccount (b : Bytes) : Option Account :=
  match decStr b with
  | none => none
  | some (addr, rest) =>
    match rest with
    | [bal, non] => some ⟨addr, bal, non⟩
    | _ => none

theorem decAccount_encAccount (a : Account) : decAccount (encAccount a) = some a := by
  simp [encAccount, decAccount, decStr_encStr]

/-- core.Session. -/
structure Session where
  id : String
  gameId : String
  creator : String
  players : List String
  stakes : Nat
  status : String
  outcome : List (String × Nat)
  createdAt : Int
  closedAt : Int
deriving Repr, DecidableEq

/-- json.Marshal of a Session. -/
def encSession (s : Session) : Bytes :=
  encStr s.id ++ encStr s.gameId ++ encStr s.creator ++ encStrs s.players ++
  [s.stakes] ++ encStr s.status ++ encSNMap s.outcome ++
  encInt s.createdAt ++ encInt s.closedAt

/-- json.Unmarshal into a Session. -/
def decSession (b : Bytes) : Option Session :=
  match decStr b with
  | none => none
  | some (id, b1) =>
  match decStr b1 with
  | none => none
  | some (gid, b2) =>
  match decStr b2 with
  | none => none
  | some (cr, b3) =>
  match b3 with
  | [] => none
  | nPl :: b4 =>
  match decStrsN nPl b4 with
  | none => none
  | some (pl, b5) =>
  match b5 with
  | [] => none
  | stakes :: b6 =>
  match decStr b6 with
  | none => none
  | some (st, b7) =>
  match b7 with
  | [] => none
  | nOut :: b8 =>
  match decSNMapN nOut b8 with
  | none => none
  | some (oc, b9) =>
  match decInt b9 with
  | none => none
  | some (ca, b10) =>
  match decInt b10 with
  | none => none
  | some (cl, _) => some ⟨id, gid, cr, pl, stakes, st, oc, ca, cl⟩

theorem decSession_encSession (s : Session) : decSession (encSession s) = some s := by
  simp only [encSession, encStrs, encSNMap, decSession, List.append_assoc,
    decStr_encStr, List.cons_append, decStrsN_encStrs, decSNMapN_encSNMap,
    decInt_encInt, decInt_encInt0, List.nil_append]

/-- core.Asset. The open properties map is modelled as string pairs. -/
structure Asset where
  id : String
  templateId : String
  owner : String
  properties : List (String × String)
  tradeable : Bool
  mintedAt : Int
  activeListingId : String
deriving Repr, DecidableEq

/-- String-to-string map encoding (asset properties, template schema). -/
def encSSMap (l : List (String × String)) : Bytes :=
  l.length :: l.flatMap (fun e => encStr e.1 ++ encStr e.2)

/-- Count-driven decoder for string-to-string maps. -/
def decSSMapN : Nat → Bytes → Option (List (String × String) × Bytes)
  | 0, b => some ([], b)
  | n + 1, b =>
    match decStr b with
    | none => none
    | some (k, rest) =>
      match decStr rest with
      | none => none
      | some (v, rest1) =>
        match decSSMapN n rest1 with
        | none => none
        | some (ps, rest2) => some ((k, v) :: ps, rest2)

/-- json.Marshal of an Asset. -/
def encAsset (a : Asset) : Bytes :=
  encStr a.id ++ encStr a.templateId ++ encStr a.owner ++ encSSMap a.properties ++
  encBool a.tradeable ++ encInt a.mintedAt ++ encStr a.activeListingId

/-- json.Unmarshal into an Asset. -/
def decAsset (b : Bytes) : Option Asset :=
  match decStr b with
  | none => none
  | some (id, b1) =>
  match decStr b1 with
  | none => none
  | some (tid, b2) =>
  match decStr b2 with
  | none => none
  | some (ow, b3) =>
  match b3 with
  | [] => none
  | nPr :: b4 =>
  match decSSMapN nPr b4 with
  | none => none
  | some (pr, b5) =>
  match decBool b5 with
  | none => none
  | some (tr, b6) =>
  match decInt b6 with
  | none => none
  | some (ma, b7) =>
  match decStr b7 with
  | none => none
  | some (al, _) => some ⟨id, tid, ow, pr, tr, ma, al⟩

/-- core.AssetTemplate. -/
structure AssetTemplate where
  id : String
  name : String
  schema : List (String × String)
  tradeable : Bool
  creator : String
deriving Repr, DecidableEq

/-- json.Marshal of an AssetTemplate. -/
def encTemplate (t : AssetTemplate) : Bytes :=
  encStr t.id ++ encStr t.name ++ encSSMap t.schema ++ encBool t.tradeable ++
  encStr t.creator

/-- json.Unmarshal into an AssetTemplate. -/
def decTemplate (b : Bytes) : Option AssetTemplate :=
  match decStr b with
  | none => none
  | some (id, b1) =>
  match decStr b1 with
  | none => none
  | some (nm, b2) =>
  match b2 with
  | [] => none
  | nSc :: b3 =>
  match decSSMapN nSc b3 with
  | none => none
  | some (sc, b4) =>
  match decBool b4 with
  | none => none
  | some (tr, b5) =>
  match decStr b5 with
  | none => none
  | some (cr, _) => some ⟨id, nm, sc, tr, cr⟩

/-- core.MarketListing. -/
structure MarketListing where
  id : String
  assetId : String
  seller : String
  price : Nat
  active : Bool
  createdAt : Int
deriving Repr, DecidableEq

/-- json.Marshal of a MarketListing. -/
def encListing (l : MarketListing) : Bytes :=
  encStr l.id ++ encStr l.assetId ++ encStr l.seller ++ [l.price] ++
  encBool l.active ++ encInt l.createdAt

/-- json.Unmarshal into a MarketListing. -/
def decListing (b : Bytes) : Option MarketListing :=
  match decStr b with
  | none => none
  | some (id, b1) =>
  match decStr b1 with
  | none => none
  | some (aid, b2) =>
  match decStr b2 with
  | none => none
  | some (sl, b3) =>
  match b3 with
  | [] => none
  | pr :: b4 =>
  match decBool b4 with
  | none => none
  | some (ac, b5) =>
  match decInt b5 with
  | none => none
  | some (ca, _) => some ⟨id, aid, sl, pr, ac, ca⟩

/-! ### Typed accessors of storage/statedb.go -/

/-- StateDB.GetAccount: a not-found read yields the zero-value account. -/
def StateDB.getAccount (s : StateDB) (address : String) : Except Err Account :=
  match s.rawGet ("acct:" ++ address) with
  | .error .notFound => .ok ⟨address, 0, 0⟩
  | .error e => .error e
  | .ok data =>
    match decAccount data with
    | none => .error (.other "unmarshal account")
    | some a => .ok a

/-- StateDB.SetAccount. -/
def StateDB.setAccount (s : StateDB) (a : Account) : StateDB :=
  s.rawSet ("acct:" ++ a.address) (encAccount a)

/-- StateDB.GetAsset. -/
def StateDB.getAsset (s : StateDB) (id : String) : Except Err Asset :=
  match s.rawGet ("asset:" ++ id) with
  | .error e => .error e
  | .ok data =>
    match decAsset data with
    | none => .error (.other "unmarshal asset")
    | some a => .ok a

/-- StateDB.SetAsset. -/
def StateDB.setAsset (s : StateDB) (a : Asset) : StateDB :=
  s.rawSet ("asset:" ++ a.id) (encAsset a)

/-- StateDB.DeleteAsset. -/
def StateDB.deleteAsset (s : StateDB) (id : String) : StateDB :=
  s.rawDel ("asset:" ++ id)

/-- StateDB.GetTemplate. -/
def StateDB.getTemplate (s : StateDB) (id : String) : Except Err AssetTemplate :=
  match s.rawGet ("tmpl:" ++ id) with
  | .error e => .error e
  | .ok data =>
    match decTemplate data with
    | none => .error (.other "unmarshal template")
    | some t => .ok t

/-- StateDB.SetTemplate. -/
def StateDB.setTemplate (s : StateDB) (t : AssetTemplate) : StateDB :=
  s.rawSet ("tmpl:" ++ t.id) (encTemplate t)

/-- StateDB.GetSession. -/
def StateDB.getSession (s : StateDB) (id : String) : Except Err Session :=
  match s.rawGet ("sess:" ++ id) with
  | .error e => .error e
  | .ok data =>
    match decSession data with
    | none => .error (.other "unmarshal session")
    | some t => .ok t

/-- StateDB.SetSession. -/
def StateDB.setSession (s : StateDB) (t : Session) : StateDB :=
  s.rawSet ("sess:" ++ t.id) (encSession t)

/-- StateDB.GetListing. -/
def StateDB.getListing (s : StateDB) (id : String) : Except Err MarketListing :=
  match s.rawGet ("list:" ++ id) with
  | .error e => .error e
  | .ok data =>
    match decListing data with
    | none => .error (.other "unmarshal listing")
    | some t => .ok t

/-- StateDB.SetListing. -/
def StateDB.setListing (s : StateDB) (t : MarketListing) : StateDB :=
  s.rawSet ("list:" ++ t.id) (encListing t)

/-! ### Crypto model

Ed25519 and hex parsing live in the Go standard library, outside src/;
they are modelled from the spec as an idealized signature scheme in which
a signature is valid exactly when it was produced for that public key and
message. -/

/-- crypto.Hash of a Go string argument (the string bytes are hashed). -/
def hashStr (s : String) : String := hashHex (s.data.map Char.toNat)

/-- Modelled from the spec: crypto.PubKeyFromHex succeeds exactly on
lowercase-hex strings that decode to 32 bytes (64 hex characters). -/
def pubKeyFromHex (s : String) : Except Err Unit :=
  if ¬ (s.data.all (fun c => hexChars.contains c)) then
    .error (.other "invalid pubkey hex")
  else if s.data.length ≠ 64 then .error (.other "wrong pubkey size")
  else .ok ()

/-- Modelled from the spec: the hex signature crypto.Sign produces for a
given signer public key and message. -/
def mkSig (pubHex : String) (data : String) : String :=
  "sig:" ++ pubHex ++ ":" ++ data

/-- Modelled from the spec: crypto.Verify accepts exactly the signature
produced for this public key over this message (ed25519 soundness plus
the round-trip property of section 8 of the spec). -/
def sigVerify (pubHex : String) (data : String) (sigHex : String) : Except Err Unit :=
  if sigHex = mkSig pubHex data then .ok ()
  else .error (.other "signature verification failed")

/-! ### Transactions (core transaction file) -/

/-- Typed payloads. Go carries json.RawMessage and each handler decodes
its own struct; the constructors below are those structs, and rawBytes
stands for a payload no handler struct matches. -/
inductive Payload where
  | transfer (toAddr : String) (amount : Nat)
  | mintAsset (templateId owner : String) (properties : List (String × String))
  | burnAsset (assetId : String)
  | transferAsset (assetId toAddr : String)
  | registerTemplate (id name : String) (schema : List (String × String)) (tradeable : Bool)
  | sessionOpen (sessionId gameId : String) (players : List String) (stakes : Nat)
  | sessionResult (sessionId : String) (outcome : List (String × Nat))
  | listMarket (assetId : String) (price : Nat)
  | buyMarket (listingId : String)
  | rawBytes (raw : Bytes)
deriving Repr, DecidableEq

/-- Canonical JSON bytes of a payload (deterministic, per section 6 of the
spec). -/
def encPayload : Payload → Bytes
  | .transfer toAddr amount => 0 :: (encStr toAddr ++ [amount])
  | .mintAsset tid ow pr => 1 :: (encStr tid ++ encStr ow ++ encSSMap pr)
  | .burnAsset aid => 2 :: encStr aid
  | .transferAsset aid toAddr => 3 :: (encStr aid ++ encStr toAddr)
  | .registerTemplate id nm sc tr => 4 :: (encStr id ++ encStr nm ++ encSSMap sc ++ encBool tr)
  | .sessionOpen sid gid pl stakes => 5 :: (encStr sid ++ encStr gid ++ encStrs pl ++ [stakes])
  | .sessionResult sid oc => 6 :: (encStr sid ++ encSNMap oc)
  | .listMarket aid price => 7 :: (encStr aid ++ [price])
  | .buyMarket lid => 8 :: encStr lid
  | .rawBytes raw => 9 :: raw

/-- core.Transaction. The Go field From is named fromAddr because from is
a reserved word in Lean. -/
structure Tx where
  id : String
  type : String
  fromAddr : String
  nonce : Nat
  fee : Nat
  timestamp : Int
  payload : Payload
  signature : String
deriving Repr, DecidableEq

/-- The canonical signing body of Transaction.Hash: every field except ID
and Signature. -/
def txSigningBody (tx : Tx) : Bytes :=
  encStr tx.type ++ encStr tx.fromAddr ++ [tx.nonce, tx.fee] ++
  encInt tx.timestamp ++ encPayload tx.payload

/-- Transaction.Hash: deterministic hash of the signing body. -/
def Tx.hash (tx : Tx) : String := hashHex (txSigningBody tx)

/-- Transaction.Verify: from must be non-empty and a valid public key, and
the signature must verify against the recomputed hash. The stored ID is
never read. -/
def Tx.verify (tx : Tx) : Except Err Unit :=
  if tx.fromAddr = "" then .error (.other "missing from field")
  else match pubKeyFromHex tx.fromAddr with
  | .error e => .error e
  | .ok _ => sigVerify tx.fromAddr tx.hash tx.signature

/-- core.BlockHeader. -/
structure Header where
  height : Int
  prevHash : String
  stateRoot : String
  txRoot : String
  timestamp : Int
  proposer : String
  chainId : String
deriving Repr, DecidableEq

/-- core.Block. -/
structure Block where
  header : Header
  transactions : List Tx
  hash : String
  signature : String
deriving Repr, DecidableEq

/-! ### Domain handlers (vm/modules)

Each handler mirrors its Go source line by line; the event emissions are
omitted because events are observed only outside the state machine.
State-mutating results carry the partially written state on error exactly
as the Go handlers leave it. -/

/-- economy.handleTransfer. -/
def handleTransfer (b : Block) (tx : Tx) (st : StateDB) : Except Err Unit × StateDB :=
  match tx.payload with
  | .transfer toAddr amount =>
    if amount = 0 then (.error (.other "transfer amount must be positive"), st)
    else if toAddr = "" then (.error (.other "transfer to address required"), st)
    else match st.getAccount tx.fromAddr with
      | .error e => (.error e, st)
      | .ok sender =>
        if sender.balance < amount then (.error (.other "insufficient balance"), st)
        else
          let st1 := st.setAccount { sender with balance := sender.balance - amount }
          match st1.getAccount toAddr with
          | .error e => (.error e, st1)
          | .ok recipient =>
            (.ok (), st1.setAccount { recipient with balance := uadd recipient.balance amount })
  | _ => (.error (.other "decode transfer payload"), st)

/-- asset.handleRegisterTemplate. -/
def handleRegisterTemplate (b : Block) (tx : Tx) (st : StateDB) : Except Err Unit × StateDB :=
  match tx.payload with
  | .registerTemplate id nm sc tr =>
    if id = "" then (.error (.other "template id required"), st)
    else match st.getTemplate id with
      | .ok _ => (.error (.other "template already exists"), st)
      | .error .notFound => (.ok (), st.setTemplate ⟨id, nm, sc, tr, tx.fromAddr⟩)
      | .error e => (.error e, st)
  | _ => (.error (.other "decode register template payload"), st)

/-- asset.handleMintAsset. -/
def handleMintAsset (b : Block) (tx : Tx) (st : StateDB) : Except Err Unit × StateDB :=
  match tx.payload with
  | .mintAsset templateId owner props =>
    if templateId = "" then (.error (.other "template id required"), st)
    else match st.getTemplate templateId with
      | .error e => (.error e, st)
      | .ok tmpl =>
        let ownerOk : Except Err String :=
          if owner = "" then .ok tx.fromAddr
          else match pubKeyFromHex owner with
            | .error e => .error e
            | .ok _ => .ok owner
        match ownerOk with
        | .error e => (.error e, st)
        | .ok ow =>
          let assetId := hashStr (tx.id ++ ":asset:" ++ templateId)
          (.ok (), st.setAsset ⟨assetId, templateId, ow, props, tmpl.tradeable,
                                b.header.timestamp, ""⟩)
  | _ => (.error (.other "decode mint asset payload"), st)

/-- asset.handleBurnAsset. -/
def handleBurnAsset (b : Block) (tx : Tx) (st : StateDB) : Except Err Unit × StateDB :=
  match tx.payload with
  | .burnAsset assetId =>
    match st.getAsset assetId with
    | .error e => (.error e, st)
    | .ok asset =>
      if asset.owner ≠ tx.fromAddr then (.error (.other "only the asset owner can burn it"), st)
      else if asset.activeListingId ≠ "" then
        (.error (.other "asset has an active listing"), st)
      else (.ok (), st.deleteAsset assetId)
  | _ => (.error (.other "decode burn asset payload"), st)

/-- asset.handleTransferAsset. -/
def handleTransferAsset (b : Block) (tx : Tx) (st : StateDB) : Except Err Unit × StateDB :=
  match tx.payload with
  | .transferAsset assetId toAddr =>
    if toAddr = "" then (.error (.other "to address required"), st)
    else match pubKeyFromHex toAddr with
      | .error e => (.error e, st)
      | .ok _ =>
        match st.getAsset assetId with
        | .error e => (.error e, st)
        | .ok asset =>
          if asset.owner ≠ tx.fromAddr then
            (.error (.other "only the asset owner can transfer it"), st)
          else if ¬ asset.tradeable then (.error (.other "asset is not tradeable"), st)
          else if asset.activeListingId ≠ "" then
            (.error (.other "asset has an active listing"), st)
          else (.ok (), st.setAsset { asset with owner := toAddr })
  | _ => (.error (.other "decode transfer asset payload"), st)

/-- market.handleListMarket. -/
def handleListMarket (b : Block) (tx : Tx) (st : StateDB) : Except Err Unit × StateDB :=
  match tx.payload with
  | .listMarket assetId price =>
    if price = 0 then (.error (.other "price must be positive"), st)
    else match st.getAsset assetId with
      | .error e => (.error e, st)
      | .ok asset =>
        if asset.owner ≠ tx.fromAddr then
          (.error (.other "only the asset owner can list it"), st)
        else if ¬ asset.tradeable then (.error (.other "asset is not tradeable"), st)
        else if asset.activeListingId ≠ "" then
          (.error (.other "asset is already listed"), st)
        else
          let listingId := hashStr (tx.id ++ ":listing:" ++ assetId)
          let st1 := st.setListing ⟨listingId, assetId, tx.fromAddr, price, true,
                                    b.header.timestamp⟩
          (.ok (), st1.setAsset { asset with activeListingId := listingId })
  | _ => (.error (.other "decode list market payload"), st)

/-- market.handleBuyMarket. -/
def handleBuyMarket (b : Block) (tx : Tx) (st : StateDB) : Except Err Unit × StateDB :=
  match tx.payload with
  | .buyMarket listingId =>
    match st.getListing listingId with
    | .error e => (.error e, st)
    | .ok listing =>
      if ¬ listing.active then (.error (.other "listing is no longer active"), st)
      else if listing.seller = tx.fromAddr then
        (.error (.other "seller cannot buy their own listing"), st)
      else match st.getAccount tx.fromAddr with
        | .error e => (.error e, st)
        | .ok buyer =>
          if buyer.balance < listing.price then
            (.error (.other "insufficient balance"), st)
          else
            let st1 := st.setAccount { buyer with balance := buyer.balance - listing.price }
            match st1.getAccount listing.seller with
            | .error e => (.error e, st1)
            | .ok seller =>
              let st2 := st1.setAccount
                { seller with balance := uadd seller.balance listing.price }
              match st2.getAsset listing.assetId with
              | .error e => (.error e, st2)
              | .ok asset =>
                let st3 := st2.setAsset
                  { asset with owner := tx.fromAddr, activeListingId := "" }
                (.ok (), st3.setListing { listing with active := false })
  | _ => (.error (.other "decode buy market payload"), st)

/-- The stake-locking loop of session.handleSessionOpen. -/
def lockStakes (stakes : Nat) : List String → StateDB → Except Err Unit × StateDB
  | [], st => (.ok (), st)
  | p :: rest, st =>
    match st.getAccount p with
    | .error e => (.error e, st)
    | .ok acc =>
      if acc.balance < stakes then
        (.error (.other "insufficient balance for stakes"), st)
      else lockStakes stakes rest (st.setAccount { acc with balance := acc.balance - stakes })

/-- session.handleSessionOpen. -/
def handleSessionOpen (b : Block) (tx : Tx) (st : StateDB) : Except Err Unit × StateDB :=
  match tx.payload with
  | .sessionOpen sessionId gameId players stakes =>
    if sessionId = "" then (.error (.other "session id required"), st)
    else if players.length = 0 then (.error (.other "at least one player required"), st)
    else match st.getSession sessionId with
      | .ok _ => (.error (.other "session already exists"), st)
      | .error (.other m) => (.error (.other m), st)
      | .error .notFound =>
        let locked := if stakes > 0 then lockStakes stakes players st else (.ok (), st)
        match locked with
        | (.error e, st1) => (.error e, st1)
        | (.ok _, st1) =>
          (.ok (), st1.setSession ⟨sessionId, gameId, "", players, stakes, "open", [],
                                   b.header.timestamp, 0⟩)
  | _ => (.error (.other "decode session open payload"), st)

/-- The per-step overflow-checked total of session.handleSessionResult:
returns the running total, or none when a step would exceed totalStakes
(the Go test reward > totalStakes - totalRewards on uint64). -/
def sumCheckGo (totalStakes : Nat) : List (String × Nat) → Nat → Option Nat
  | [], tot => some tot
  | e :: rest, tot =>
    if e.2 > totalStakes - tot then none else sumCheckGo totalStakes rest (tot + e.2)

/-- The reward-distribution loop of session.handleSessionResult. -/
def distribute : List (String × Nat) → StateDB → Except Err Unit × StateDB
  | [], st => (.ok (), st)
  | e :: rest, st =>
    match st.getAccount e.1 with
    | .error er => (.error er, st)
    | .ok acc => distribute rest (st.setAccount { acc with balance := uadd acc.balance e.2 })

/-- session.handleSessionResult. The Go totalStakes is the wrapping uint64
product stakes * uint64(len(players)). -/
def handleSessionResult (b : Block) (tx : Tx) (st : StateDB) : Except Err Unit × StateDB :=
  match tx.payload with
  | .sessionResult sessionId outcome =>
    match st.getSession sessionId with
    | .error e => (.error e, st)
    | .ok sess =>
      if sess.status ≠ "open" then (.error (.other "session already closed"), st)
      else
        let totalStakes := umul sess.stakes sess.players.length
        match sumCheckGo totalStakes outcome 0 with
        | none => (.error (.other "rewards exceed total stakes"), st)
        | some _ =>
          match distribute outcome st with
          | (.error e, st1) => (.error e, st1)
          | (.ok _, st1) =>
            (.ok (), st1.setSession { sess with status := "closed", outcome := outcome,
                                                closedAt := b.header.timestamp })
  | _ => (.error (.other "decode session result payload"), st)

/-! ### Executor (vm executor file) -/

/-- The global handler registry dispatch: the nine kinds registered by the
module init functions, and a well-defined error for unknown kinds. -/
def registryExecute (typ : String) (b : Block) (tx : Tx) (st : StateDB) :
    Except Err Unit × StateDB :=
  if typ = "transfer" then handleTransfer b tx st
  else if typ = "mint_asset" then handleMintAsset b tx st
  else if typ = "burn_asset" then handleBurnAsset b tx st
  else if typ = "transfer_asset" then handleTransferAsset b tx st
  else if typ = "register_template" then handleRegisterTemplate b tx st
  else if typ = "session_open" then handleSessionOpen b tx st
  else if typ = "session_result" then handleSessionResult b tx st
  else if typ = "list_market" then handleListMarket b tx st
  else if typ = "buy_market" then handleBuyMarket b tx st
  else (.error (.other "no handler registered"), st)

/-- Lines 75 to 119 of the executor applyTx: nonce and fee discipline and
the fee credit to the proposer, before the handler dispatch. -/
def applyFeeNonce (b : Block) (tx : Tx) (st : StateDB) : Except Err Unit × StateDB :=
  match st.getAccount tx.fromAddr with
  | .error e => (.error e, st)
  | .ok acc =>
    if acc.nonce ≠ tx.nonce then (.error (.other "invalid nonce"), st)
    else if acc.balance < tx.fee then
      (.error (.other "insufficient balance for fee"), st)
    else if acc.nonce = u64max then (.error (.other "nonce overflow"), st)
    else
      let acc1 : Account := { acc with balance := acc.balance - tx.fee,
                                       nonce := acc.nonce + 1 }
      if tx.fee > 0 ∧ b.header.proposer ≠ "" ∧ tx.fromAddr ≠ b.header.proposer then
        let st1 := st.setAccount acc1
        match st1.getAccount b.header.proposer with
        | .error e => (.error e, st1)
        | .ok prop =>
          if prop.balance > u64max - tx.fee then
            (.error (.other "proposer balance overflow"), st1)
          else (.ok (), st1.setAccount { prop with balance := prop.balance + tx.fee })
      else
        let acc2 : Account :=
          if tx.fee > 0 ∧ tx.fromAddr = b.header.proposer then
            { acc1 with balance := acc1.balance + tx.fee }
          else acc1
        (.ok (), st.setAccount acc2)

/-- Executor.applyTx: fee and nonce accounting, then handler dispatch. -/
def applyTx (b : Block) (tx : Tx) (st : StateDB) : Except Err Unit × StateDB :=
  match applyFeeNonce b tx st with
  | (.error e, st1) => (.error e, st1)
  | (.ok _, st1) => registryExecute tx.type b tx st1

/-- Executor.ExecuteTx: verify, snapshot, apply, revert on failure. -/
def executeTx (b : Block) (tx : Tx) (st : StateDB) : Except Err Unit × StateDB :=
  match tx.verify with
  | .error e => (.error e, st)
  | .ok _ =>
    let (snapId, st1) := st.snapshot
    match applyTx b tx st1 with
    | (.error e, st2) =>
      match st2.revertToSnapshot snapId with
      | (.error _, st3) => (.error (.other "revert snapshot after tx failure"), st3)
      | (.ok _, st3) => (.error e, st3)
    | (.ok _, st2) => (.ok (), st2)

/-- The transaction loop of Executor.ExecuteBlock: a failing transaction
rejects the whole block. -/
def executeTxs (b : Block) : List Tx → StateDB → Except Err Unit × StateDB
  | [], st => (.ok (), st)
  | tx :: rest, st =>
    match executeTx b tx st with
    | (.error e, st1) => (.error e, st1)
    | (.ok _, st1) => executeTxs b rest st1

/-- Executor.ExecuteBlock. -/
def executeBlock (b : Block) (st : StateDB) : Except Err Unit × StateDB :=
  executeTxs b b.transactions st

/-! ### Mempool (core/mempool.go) -/

/-- maxTxAge: one hour in nanoseconds. -/
def maxTxAge : Int := 3600 * 1000000000

/-- maxTxFuture: five minutes in nanoseconds. -/
def maxTxFuture : Int := 300 * 1000000000

/-- maxMempoolSize. -/
def maxMempoolSize : Nat := 10000

/-- core.Mempool: the transaction map plus the insertion-ordered id list. -/
structure Mempool where
  txs : List (String × Tx)
  ord : List String
deriving Repr, DecidableEq

/-- An empty mempool. -/
def emptyMempool : Mempool := ⟨[], []⟩

/-- Mempool.Add at wall-clock time now (nanoseconds). -/
def Mempool.add (m : Mempool) (tx : Tx) (now : Int) : Except Err Mempool :=
  match tx.verify with
  | .error _ => .error (.other "invalid tx signature")
  | .ok _ =>
    if now - tx.timestamp > maxTxAge then .error (.other "transaction expired")
    else if tx.timestamp - now > maxTxFuture then
      .error (.other "transaction timestamp too far in the future")
    else if maxMempoolSize ≤ m.txs.length then .error (.other "mempool full")
    else if (mapLookup tx.id m.txs).isSome then .error (.other "tx already in pool")
    else .ok { txs := (tx.id, tx) :: m.txs, ord := m.ord ++ [tx.id] }

/-- The collection loop of Mempool.Pending: append each resolvable id and
stop once the result length has reached n (the Go code checks the bound
after appending). -/
def pendingGo (txs : List (String × Tx)) : List String → List Tx → Nat → List Tx
  | [], acc, _ => acc
  | id :: rest, acc, n =>
    match mapLookup id txs with
    | none => pendingGo txs rest acc n
    | some tx =>
      let acc1 := acc ++ [tx]
      if n ≤ acc1.length then acc1 else pendingGo txs rest acc1 n

/-- Mempool.Pending. -/
def Mempool.pending (m : Mempool) (n : Nat) : List Tx :=
  pendingGo m.txs m.ord [] n

/-- A sequence of Add calls, each with its own wall-clock time; none when
any call in the sequence fails. -/
def addSeq : Mempool → List (Tx × Int) → Option Mempool
  | m, [] => some m
  | m, (tx, now) :: rest =>
    match m.add tx now with
    | .error _ => none
    | .ok m1 => addSeq m1 rest

/-! ### Chain store (core blockchain file, storage block store) -/

/-- The persisted chain: block data by hash, the height index, and the tip
pointer, as maintained by the storage BlockStore. An empty tip string
means a fresh chain. -/
structure BlockStore where
  byHash : List (String × Block)
  byHeight : List (Int × String)
  tip : String
deriving Repr, DecidableEq

/-- Insertion for the Int-keyed height index. -/
def hInsert (k : Int) (v : String) (m : List (Int × String)) : List (Int × String) :=
  (k, v) :: m.filter (fun e => e.1 ≠ k)

/-- Modelled from the spec: BlockStore.CommitBlock (its body is not under
src/, only the interface declaration and its callers are) atomically
writes the block data, the height index entry and the tip pointer in a
single batch. -/
def BlockStore.commitBlock (s : BlockStore) (b : Block) : BlockStore :=
  { byHash := mapInsert b.hash b s.byHash,
    byHeight := hInsert b.header.height b.hash s.byHeight,
    tip := b.hash }

/-- core.Blockchain: the store plus the cached tip block and height. -/
structure Blockchain where
  store : BlockStore
  tip : Option Block
  height : Int
deriving Repr, DecidableEq

/-- Blockchain.AddBlock: with a tip, reject any block that does not extend
it by exactly one height with a matching previous hash; then persist
through the atomic CommitBlock and advance the cached tip. -/
def Blockchain.addBlock (bc : Blockchain) (b : Block) : Except Err Blockchain :=
  match bc.tip with
  | some t =>
    if b.header.height ≠ bc.height + 1 then
      .error (.other "block height does not follow tip")
    else if b.header.prevHash ≠ t.hash then
      .error (.other "prev hash mismatch")
    else .ok { store := bc.store.commitBlock b, tip := some b, height := b.header.height }
  | none =>
    .ok { store := bc.store.commitBlock b, tip := some b, height := b.header.height }

/-! ### Syncer (network/sync.go) -/

/-- The state a Syncer mutates: the chain and the state store. The
validator is the polymorphic BlockValidator capability (nil in Go is
none here); exec and state are either both present or both absent,
captured by the useExec flag. -/
structure SyncState where
  chain : Blockchain
  st : StateDB
deriving Repr, DecidableEq

/-- The per-batch block loop of Syncer.handleBlocks. Validation failure
and state-root mismatch stop the batch (Go return); execution failure
and AddBlock failure revert to the snapshot and move to the next block
(Go continue). A failed revert is fatal in Go; the model keeps the
reverted-or-stopped state in every branch. -/
def handleBlocksGo (validate : Option (Block → Except Err Unit)) (useExec : Bool) :
    List Block → SyncState → SyncState
  | [], s => s
  | b :: rest, s =>
    match (match validate with | none => Except.ok () | some v => v b) with
    | .error _ => s
    | .ok _ =>
      cond useExec
        (let (snapId, st1) := s.st.snapshot
         match executeBlock b st1 with
         | (.error _, st2) =>
           handleBlocksGo validate useExec rest
             { s with st := (st2.revertToSnapshot snapId).2 }
         | (.ok _, st2) =>
           let computed := st2.computeRoot
           if b.header.stateRoot ≠ "" ∧ computed ≠ b.header.stateRoot then
             { s with st := (st2.revertToSnapshot snapId).2 }
           else
             match s.chain.addBlock b with
             | .error _ =>
               handleBlocksGo validate useExec rest
                 { s with st := (st2.revertToSnapshot snapId).2 }
             | .ok chain1 =>
               handleBlocksGo validate useExec rest { chain := chain1, st := st2.commit })
        (match s.chain.addBlock b with
         | .error _ => handleBlocksGo validate useExec rest s
         | .ok chain1 => handleBlocksGo validate useExec rest { s with chain := chain1 })

/-! ### Generic store lemmas -/

@[simp] theorem rawSet_db (s : StateDB) (k : String) (v : Bytes) :
    (s.rawSet k v).db = s.db := rfl

@[simp] theorem rawSet_snapshots (s : StateDB) (k : String) (v : Bytes) :
    (s.rawSet k v).snapshots = s.snapshots := rfl

@[simp] theorem rawDel_db (s : StateDB) (k : String) : (s.rawDel k).db = s.db := rfl

@[simp] theorem rawDel_snapshots (s : StateDB) (k : String) :
    (s.rawDel k).snapshots = s.snapshots := rfl

@[simp] theorem setAccount_db (s : StateDB) (a : Account) :
    (s.setAccount a).db = s.db := rfl

@[simp] theorem setAccount_snapshots (s : StateDB) (a : Account) :
    (s.setAccount a).snapshots = s.snapshots := rfl

theorem rawGet_rawSet_self (s : StateDB) (k : String) (v : Bytes) :
    (s.rawSet k v).rawGet k = .ok v := by
  simp [StateDB.rawSet, StateDB.rawGet, List.mem_filter, mapLookup_mapInsert]

theorem rawGet_rawSet_ne (s : StateDB) (k : String) (v : Bytes) (k2 : String)
    (h : k2 ≠ k) : (s.rawSet k v).rawGet k2 = s.rawGet k2 := by
  simp only [StateDB.rawSet, StateDB.rawGet, List.mem_filter, mapLookup_mapInsert]
  have hk : ¬ (k = k2) := fun hh => h hh.symm
  simp [hk, h]

theorem rawGet_rawDel_ne (s : StateDB) (k k2 : String) (h : k2 ≠ k) :
    (s.rawDel k).rawGet k2 = s.rawGet k2 := by
  simp only [StateDB.rawDel, StateDB.rawGet, mapLookup_mapErase, setInsert]
  have hk : ¬ (k = k2) := fun hh => h hh.symm
  by_cases hm : k ∈ s.deleted <;> simp [hk, h, hm]

/-! ### String key lemmas -/

theorem strApp_data (s t : String) : (s ++ t).data = s.data ++ t.data := by
  cases s
  cases t
  rfl

theorem strExt {a b : String} (h : a.data = b.data) : a = b := by
  cases a
  cases b
  exact congrArg String.mk h

theorem strApp_right_inj {p a b : String} (h : p ++ a = p ++ b) : a = b := by
  have hd := congrArg String.data h
  rw [strApp_data, strApp_data] at hd
  exact strExt (List.append_cancel_left hd)

theorem acctKey_inj {a b : String} (h : "acct:" ++ a = "acct:" ++ b) : a = b :=
  strApp_right_inj h

theorem acctKey_ne_sessKey (a b : String) : "acct:" ++ a ≠ "sess:" ++ b := by
  intro h
  have hd := congrArg String.data h
  rw [strApp_data, strApp_data] at hd
  have h1 : "acct:".data = ['a', 'c', 'c', 't', ':'] := rfl
  have h2 : "sess:".data = ['s', 'e', 's', 's', ':'] := rfl
  rw [h1, h2] at hd
  simp at hd

/-! ### Typed accessor lemmas -/

theorem getAccount_setAccount_self (s : StateDB) (a : Account) :
    (s.setAccount a).getAccount a.address = .ok a := by
  simp [StateDB.getAccount, StateDB.setAccount, rawGet_rawSet_self, decAccount_encAccount]

theorem getAccount_setAccount_ne (s : StateDB) (a : Account) (addr : String)
    (h : addr ≠ a.address) : (s.setAccount a).getAccount addr = s.getAccount addr := by
  have hk : ("acct:" ++ addr) ≠ ("acct:" ++ a.address) := fun hh => h (acctKey_inj hh)
  simp [StateDB.getAccount, StateDB.setAccount, rawGet_rawSet_ne _ _ _ _ hk]

theorem getSession_setAccount (s : StateDB) (a : Account) (sid : String) :
    (s.setAccount a).getSession sid = s.getSession sid := by
  have hk : ("sess:" ++ sid) ≠ ("acct:" ++ a.address) :=
    fun hh => acctKey_ne_sessKey a.address sid hh.symm
  simp [StateDB.getSession, StateDB.setAccount, rawGet_rawSet_ne _ _ _ _ hk]

theorem getSession_setSession_self (s : StateDB) (t : Session) :
    (s.setSession t).getSession t.id = .ok t := by
  simp [StateDB.getSession, StateDB.setSession, rawGet_rawSet_self, decSession_encSession]

theorem getAccount_setSession (s : StateDB) (t : Session) (addr : String) :
    (s.setSession t).getAccount addr = s.getAccount addr := by
  have hk : ("acct:" ++ addr) ≠ ("sess:" ++ t.id) := acctKey_ne_sessKey addr t.id
  simp [StateDB.getAccount, StateDB.setSession, rawGet_rawSet_ne _ _ _ _ hk]

/-! ### Handlers never touch the backing store or the snapshot stack

Handlers mutate state only through the buffer writes of set and del, so
the db field and the snapshot stack are invariant across every handler,
across the fee and nonce step, and across applyTx. -/

/-- The invariant preserved by every state mutation a handler performs. -/
def NoTouch (st st2 : StateDB) : Prop :=
  st2.db = st.db ∧ st2.snapshots = st.snapshots

theorem noTouch_refl (st : StateDB) : NoTouch st st := ⟨rfl, rfl⟩

theorem noTouch_trans {a b c : StateDB} (h1 : NoTouch a b) (h2 : NoTouch b c) :
    NoTouch a c := ⟨h2.1.trans h1.1, h2.2.trans h1.2⟩

theorem noTouch_handleTransfer (b : Block) (tx : Tx) (st : StateDB) :
    NoTouch st (handleTransfer b tx st).2 := by
  unfold handleTransfer
  repeat' first | split | dsimp only
  all_goals exact ⟨rfl, rfl⟩

theorem noTouch_handleRegisterTemplate (b : Block) (tx : Tx) (st : StateDB) :
    NoTouch st (handleRegisterTemplate b tx st).2 := by
  unfold handleRegisterTemplate
  repeat' first | split | dsimp only
  all_goals exact ⟨rfl, rfl⟩

theorem noTouch_handleMintAsset (b : Block) (tx : Tx) (st : StateDB) :
    NoTouch st (handleMintAsset b tx st).2 := by
  unfold handleMintAsset
  repeat' first | split | dsimp only
  all_goals exact ⟨rfl, rfl⟩

theorem noTouch_handleBurnAsset (b : Block) (tx : Tx) (st : StateDB) :
    NoTouch st (handleBurnAsset b tx st).2 := by
  unfold handleBurnAsset
  repeat' first | split | dsimp only
  all_goals exact ⟨rfl, rfl⟩

theorem noTouch_handleTransferAsset (b : Block) (tx : Tx) (st : StateDB) :
    NoTouch st (handleTransferAsset b tx st).2 := by
  unfold handleTransferAsset
  repeat' first | split | dsimp only
  all_goals exact ⟨rfl, rfl⟩

theorem noTouch_handleListMarket (b : Block) (tx : Tx) (st : StateDB) :
    NoTouch st (handleListMarket b tx st).2 := by
  unfold handleListMarket
  repeat' first | split | dsimp only
  all_goals exact ⟨rfl, rfl⟩

theorem noTouch_handleBuyMarket (b : Block) (tx : Tx) (st : StateDB) :
    NoTouch st (handleBuyMarket b tx st).2 := by
  unfold handleBuyMarket
  repeat' first | split | dsimp only
  all_goals exact ⟨rfl, rfl⟩

theorem noTouch_lockStakes (stakes : Nat) (l : List String) :
    ∀ st : StateDB, NoTouch st (lockStakes stakes l st).2 := by
  induction l with
  | nil => intro st; exact ⟨rfl, rfl⟩
  | cons p rest ih =>
    intro st
    unfold lockStakes
    cases h : st.getAccount p with
    | error e => exact ⟨rfl, rfl⟩
    | ok acc =>
      by_cases hb : acc.balance < stakes
      · simp only [hb, if_true]
        exact ⟨rfl, rfl⟩
      · simp only [hb, if_false]
        exact noTouch_trans (noTouch_refl _)
          (ih (st.setAccount { acc with balance := acc.balance - stakes }))

theorem noTouch_handleSessionOpen (b : Block) (tx : Tx) (st : StateDB) :
    NoTouch st (handleSessionOpen b tx st).2 := by
  unfold handleSessionOpen
  cases hp : tx.payload
  case sessionOpen sid gid players stakes =>
    dsimp only
    by_cases h1 : sid = ""
    · simp only [h1, if_true]
      exact ⟨rfl, rfl⟩
    · simp only [if_neg h1]
      by_cases h2 : players.length = 0
      · simp only [h2, if_true]
        exact ⟨rfl, rfl⟩
      · simp only [if_neg h2]
        cases hs : st.getSession sid with
        | ok sess => exact ⟨rfl, rfl⟩
        | error e =>
          cases e with
          | other m => exact ⟨rfl, rfl⟩
          | notFound =>
            dsimp only
            rcases hl : (if stakes > 0 then lockStakes stakes players st
                         else (Except.ok (), st)) with ⟨r, st1⟩
            have hnt : NoTouch st st1 := by
              by_cases hstk : stakes > 0
              · rw [if_pos hstk] at hl
                have h := noTouch_lockStakes stakes players st
                rw [hl] at h
                exact h
              · rw [if_neg hstk] at hl
                cases hl
                exact ⟨rfl, rfl⟩
            cases r with
            | error e2 => exact hnt
            | ok u => exact ⟨hnt.1, hnt.2⟩
  all_goals exact ⟨rfl, rfl⟩

theorem noTouch_distribute (l : List (String × Nat)) :
    ∀ st : StateDB, NoTouch st (distribute l st).2 := by
  induction l with
  | nil => intro st; exact ⟨rfl, rfl⟩
  | cons e rest ih =>
    intro st
    unfold distribute
    cases h : st.getAccount e.1 with
    | error er => exact ⟨rfl, rfl⟩
    | ok acc =>
      exact noTouch_trans (noTouch_refl _)
        (ih (st.setAccount { acc with balance := uadd acc.balance e.2 }))

theorem noTouch_handleSessionResult (b : Block) (tx : Tx) (st : StateDB) :
    NoTouch st (handleSessionResult b tx st).2 := by
  unfold handleSessionResult
  cases hp : tx.payload
  case sessionResult sid outcome =>
    dsimp only
    cases hs : st.getSession sid with
    | error e => exact ⟨rfl, rfl⟩
    | ok sess =>
      dsimp only
      by_cases hopen : sess.status ≠ "open"
      · simp only [if_pos hopen]
        exact ⟨rfl, rfl⟩
      · simp only [if_neg hopen]
        cases hc : sumCheckGo (umul sess.stakes sess.players.length) outcome 0 with
        | none => exact ⟨rfl, rfl⟩
        | some tot =>
          rcases hd : distribute outcome st with ⟨r, st1⟩
          have hnt : NoTouch st st1 := by
            have h := noTouch_distribute outcome st
            rw [hd] at h
            exact h
          cases r with
          | error e => exact hnt
          | ok u => exact ⟨hnt.1, hnt.2⟩
  all_goals exact ⟨rfl, rfl⟩

theorem noTouch_registryExecute (typ : String) (b : Block) (tx : Tx) (st : StateDB) :
    NoTouch st (registryExecute typ b tx st).2 := by
  unfold registryExecute
  repeat' split
  · exact noTouch_handleTransfer b tx st
  · exact noTouch_handleMintAsset b tx st
  · exact noTouch_handleBurnAsset b tx st
  · exact noTouch_handleTransferAsset b tx st
  · exact noTouch_handleRegisterTemplate b tx st
  · exact noTouch_handleSessionOpen b tx st
  · exact noTouch_handleSessionResult b tx st
  · exact noTouch_handleListMarket b tx st
  · exact noTouch_handleBuyMarket b tx st
  · exact ⟨rfl, rfl⟩

theorem noTouch_applyFeeNonce (b : Block) (tx : Tx) (st : StateDB) :
    NoTouch st (applyFeeNonce b tx st).2 := by
  unfold applyFeeNonce
  repeat' first | split | dsimp only
  all_goals exact ⟨rfl, rfl⟩

theorem noTouch_applyTx (b : Block) (tx : Tx) (st : StateDB) :
    NoTouch st (applyTx b tx st).2 := by
  unfold applyTx
  cases h : applyFeeNonce b tx st with
  | mk r st1 =>
    have h1 : NoTouch st st1 := by
      have := noTouch_applyFeeNonce b tx st
      rw [h] at this
      exact this
    cases r with
    | error e => exact h1
    | ok _ =>
      exact noTouch_trans h1 (noTouch_registryExecute tx.type b tx st1)

/-! ### Snapshot and revert mechanics -/

/-- Reverting to the snapshot pushed on top of stack depth n restores the
saved buffer and tombstones and truncates the stack back to depth n, for
any state whose stack still extends the pushed entry. -/
theorem revert_after (st st2 : StateDB) (t : List Snap)
    (hdb : st2.db = st.db)
    (hsnap : st2.snapshots = (st.snapshots ++ [⟨st.dirty, st.deleted⟩]) ++ t) :
    st2.revertToSnapshot (st.snapshots.length : Int) =
      (.ok (), ⟨st.db, st.dirty, st.deleted, st.snapshots⟩) := by
  have hlen : st2.snapshots.length = st.snapshots.length + 1 + t.length := by
    rw [hsnap]
    simp
    omega
  have hcond : 0 ≤ (st.snapshots.length : Int) ∧
      (st.snapshots.length : Int) < st2.snapshots.length := by
    constructor
    · positivity
    · rw [hlen]
      push_cast
      omega
  unfold StateDB.revertToSnapshot
  rw [dif_pos hcond]
  have htn : (st.snapshots.length : Int).toNat = st.snapshots.length := Int.toNat_natCast _
  have hget : st2.snapshots.get ⟨(st.snapshots.length : Int).toNat, by omega⟩ =
      (⟨st.dirty, st.deleted⟩ : Snap) := by
    simp only [List.get_eq_getElem, htn, hsnap]
    rw [List.getElem_append_left (by simp)]
    exact List.getElem_concat_length st.snapshots _ _ rfl (by simp)
  have htake : st2.snapshots.take (st.snapshots.length : Int).toNat = st.snapshots := by
    rw [htn, hsnap, List.append_assoc, List.take_left]
  rw [hget, htake, hdb]

/-- ExecuteTx on a transaction whose application fails after signature
verification returns exactly the pre-transaction state together with the
application error. -/
theorem executeTx_applyErr (b : Block) (tx : Tx) (st : StateDB) (e : Err)
    (hv : tx.verify = .ok ())
    (ha : (applyTx b tx (st.snapshot).2).1 = .error e) :
    executeTx b tx st = (.error e, st) := by
  have ha2 : (applyTx b tx
      { st with snapshots := st.snapshots ++ [⟨st.dirty, st.deleted⟩] }).1 = .error e := ha
  unfold executeTx
  rw [hv]
  dsimp only [StateDB.snapshot]
  rcases hA : applyTx b tx
      { st with snapshots := st.snapshots ++ [⟨st.dirty, st.deleted⟩] } with ⟨r, st2⟩
  have hnt := noTouch_applyTx b tx
      { st with snapshots := st.snapshots ++ [⟨st.dirty, st.deleted⟩] }
  rw [hA] at hnt
  rw [hA] at ha2
  cases r with
  | ok u => exact absurd ha2 (by simp)
  | error e2 =>
    have he : e2 = e := by simpa using ha2
    subst he
    have hrev := revert_after st st2 [] hnt.1 (by rw [hnt.2]; simp)
    dsimp only
    rw [hrev]

/-- ExecuteTx extends the snapshot stack and never touches the backing
store: a successful transaction leaves its own snapshot on the stack, a
failed one restores the stack exactly. -/
theorem coreExt_executeTx (b : Block) (tx : Tx) (st : StateDB) :
    ((executeTx b tx st).2).db = st.db ∧
    ∃ t, ((executeTx b tx st).2).snapshots = st.snapshots ++ t := by
  unfold executeTx
  cases hv : tx.verify with
  | error e => exact ⟨rfl, [], by simp⟩
  | ok u =>
    dsimp only [StateDB.snapshot]
    rcases hA : applyTx b tx
        { st with snapshots := st.snapshots ++ [⟨st.dirty, st.deleted⟩] } with ⟨r, st2⟩
    have hnt := noTouch_applyTx b tx
        { st with snapshots := st.snapshots ++ [⟨st.dirty, st.deleted⟩] }
    rw [hA] at hnt
    cases r with
    | ok u2 => exact ⟨hnt.1, [⟨st.dirty, st.deleted⟩], hnt.2⟩
    | error e =>
      have hrev := revert_after st st2 [] hnt.1 (by rw [hnt.2]; simp)
      dsimp only
      rw [hrev]
      exact ⟨rfl, [], by simp⟩

theorem coreExt_executeTxs (b : Block) (l : List Tx) :
    ∀ st : StateDB, ((executeTxs b l st).2).db = st.db ∧
      ∃ t, ((executeTxs b l st).2).snapshots = st.snapshots ++ t := by
  induction l with
  | nil =>
    intro st
    exact ⟨rfl, [], by simp [executeTxs]⟩
  | cons tx rest ih =>
    intro st
    unfold executeTxs
    rcases hE : executeTx b tx st with ⟨r, st1⟩
    have h1 := coreExt_executeTx b tx st
    rw [hE] at h1
    obtain ⟨hdb1, t1, hsn1⟩ := h1
    cases r with
    | error e => exact ⟨hdb1, t1, hsn1⟩
    | ok u =>
      obtain ⟨hdb2, t2, hsn2⟩ := ih st1
      refine ⟨hdb2.trans hdb1, t1 ++ t2, ?_⟩
      rw [hsn2, hsn1, List.append_assoc]

theorem coreExt_executeBlock (b : Block) (st : StateDB) :
    ((executeBlock b st).2).db = st.db ∧
    ∃ t, ((executeBlock b st).2).snapshots = st.snapshots ++ t :=
  coreExt_executeTxs b b.transactions st

/-! ### Claim C4 -/

/-- C4: ExecuteTx is atomic on failure. For every transaction whose
application returns an error after signature verification, the dirty
buffer and tombstone set afterwards equal their contents immediately
before the transaction (the whole state is restored from the snapshot
taken at the start) and the error is surfaced to the caller. -/
theorem executeTx_atomic_on_failure (b : Block) (tx : Tx) (st : StateDB) (e : Err)
    (hv : tx.verify = .ok ())
    (ha : (applyTx b tx (st.snapshot).2).1 = .error e) :
    (executeTx b tx st).1 = .error e ∧
    (executeTx b tx st).2.dirty = st.dirty ∧
    (executeTx b tx st).2.deleted = st.deleted ∧
    (executeTx b tx st).2 = st := by
  have h := executeTx_applyErr b tx st e hv ha
  rw [h]
  exact ⟨rfl, rfl, rfl, rfl⟩

/-- A 64-character lowercase-hex public key string. -/
def zeros64 : String := String.mk (List.replicate 64 '0')

/-- An unsigned transaction carrying a nonce that does not match the
zero-value account nonce. -/
def txC4base : Tx := ⟨"", "transfer", zeros64, 5, 0, 0, .transfer zeros64 1, ""⟩

/-- The same transaction signed the way Transaction.Sign signs: the id is
set to the body hash and the signature covers that hash. -/
def txC4 : Tx :=
  { txC4base with id := txC4base.hash, signature := mkSig zeros64 txC4base.hash }

/-- An arbitrary enclosing block for the C4 witness. -/
def blkC4 : Block := ⟨⟨1, "", "", "", 0, "", ""⟩, [txC4], "", ""⟩

theorem executeTx_atomic_on_failure_witness :
    txC4.verify = .ok () ∧
    (applyTx blkC4 txC4 (emptyState.snapshot).2).1 = .error (.other "invalid nonce") ∧
    (executeTx blkC4 txC4 emptyState).1 = .error (.other "invalid nonce") ∧
    (executeTx blkC4 txC4 emptyState).2 = emptyState :=
  ⟨rfl, rfl,
   (executeTx_atomic_on_failure blkC4 txC4 emptyState (.other "invalid nonce") rfl rfl).1,
   (executeTx_atomic_on_failure blkC4 txC4 emptyState (.other "invalid nonce") rfl rfl).2.2.2⟩

/-! ### Claim C3 -/

/-- C3 as amended: when executing a received block against the state
fails, the syncer reverts to the snapshot taken before that block and
then continues with the remaining blocks of the batch (the Go loop uses
continue, not return, on execution failure). -/
theorem handleBlocks_execFail_continues (v : Option (Block → Except Err Unit))
    (b : Block) (rest : List Block) (s : SyncState) (e : Err)
    (hval : (match v with | none => Except.ok () | some f => f b) = Except.ok ())
    (hexec : (executeBlock b ((s.st.snapshot).2)).1 = .error e) :
    handleBlocksGo v true (b :: rest) s = handleBlocksGo v true rest s := by
  simp only [handleBlocksGo]
  rw [hval]
  dsimp only [StateDB.snapshot]
  split
  next e2 st2 heq =>
    have heq2 : executeBlock b ((s.st.snapshot).2) = (.error e2, st2) := heq
    have hext := coreExt_executeBlock b ((s.st.snapshot).2)
    rw [heq2] at hext
    obtain ⟨hdb, t, hsn⟩ := hext
    have hdb2 : st2.db = s.st.db := hdb
    have hsn2 : st2.snapshots =
        (s.st.snapshots ++ [⟨s.st.dirty, s.st.deleted⟩]) ++ t := hsn
    have hrev := revert_after s.st st2 t hdb2 hsn2
    rw [hrev]
    rfl
  next u st2 heq =>
    have heq2 : executeBlock b ((s.st.snapshot).2) = (.ok u, st2) := heq
    rw [heq2] at hexec
    exact absurd hexec (by simp)

/-- The chain tip block of the concrete C3 scenario. -/
def g3 : Block := ⟨⟨1, "", "", "", 0, "", ""⟩, [], "hg", ""⟩

/-- A transaction whose signature does not verify. -/
def txBad3 : Tx := ⟨"i", "transfer", zeros64, 0, 0, 0, .transfer zeros64 1, "badsig"⟩

/-- A block at height 2 whose execution fails on its bad transaction. -/
def bX3 : Block := ⟨⟨2, "hg", "", "", 0, "", ""⟩, [txBad3], "hx", ""⟩

/-- A valid empty block at height 2 on the same parent. -/
def bY3 : Block := ⟨⟨2, "hg", "", "", 0, "", ""⟩, [], "hy", ""⟩

/-- A chain whose tip is g3 at height 1. -/
def bc3 : Blockchain := ⟨⟨[("hg", g3)], [(1, "hg")], "hg"⟩, some g3, 1⟩

/-- The syncer state of the concrete C3 scenario. -/
def s3 : SyncState := ⟨bc3, emptyState⟩

theorem handleBlocks_stops_on_execFail_counterexample :
    (executeBlock bX3 ((s3.st.snapshot).2)).1 =
      .error (.other "signature verification failed") ∧
    (handleBlocksGo (some (fun _ => .ok ())) true [bX3, bY3] s3).chain.tip = some bY3 ∧
    (handleBlocksGo (some (fun _ => .ok ())) true [bX3] s3).chain.tip = some g3 :=
  ⟨rfl, rfl, rfl⟩

/-! ### Claim C2 -/

/-- C2: for every transaction that passes the nonce, fee and overflow
checks, the state handed to the handler has the sender debited by the
fee with the nonce incremented; when sender and proposer are distinct
the fee is credited to the proposer account loaded separately, and a
credit that would overflow uint64 is rejected; when sender and proposer
are the same account the credit is folded into the already-loaded sender
record so its balance is unchanged; a zero fee changes no balance. -/
theorem applyTx_fee_nonce (b : Block) (tx : Tx) (st : StateDB) (acc prop : Account)
    (hacc : st.getAccount tx.fromAddr = .ok acc)
    (haddr : acc.address = tx.fromAddr)
    (hn : acc.nonce = tx.nonce)
    (hb : tx.fee ≤ acc.balance)
    (hmax : acc.nonce ≠ u64max) :
    (0 < tx.fee → b.header.proposer ≠ "" → tx.fromAddr ≠ b.header.proposer →
       st.getAccount b.header.proposer = .ok prop →
       prop.address = b.header.proposer →
       ((prop.balance ≤ u64max - tx.fee →
          ∃ st1, applyFeeNonce b tx st = (.ok (), st1) ∧
            st1.getAccount tx.fromAddr =
              .ok ⟨acc.address, acc.balance - tx.fee, acc.nonce + 1⟩ ∧
            st1.getAccount b.header.proposer =
              .ok ⟨prop.address, prop.balance + tx.fee, prop.nonce⟩) ∧
        (u64max - tx.fee < prop.balance →
          ∃ e, (applyFeeNonce b tx st).1 = .error e))) ∧
    (0 < tx.fee → tx.fromAddr = b.header.proposer →
       ∃ st1, applyFeeNonce b tx st = (.ok (), st1) ∧
         st1.getAccount tx.fromAddr = .ok ⟨acc.address, acc.balance, acc.nonce + 1⟩) ∧
    (tx.fee = 0 →
       ∃ st1, applyFeeNonce b tx st = (.ok (), st1) ∧
         st1.getAccount tx.fromAddr = .ok ⟨acc.address, acc.balance, acc.nonce + 1⟩) := by
  unfold applyFeeNonce
  rw [hacc]
  dsimp only
  rw [if_neg (not_not_intro hn), if_neg (not_lt.mpr hb), if_neg hmax]
  refine ⟨fun hpos hprop hne hpacc hpaddr => ?_, fun hpos heq => ?_, fun hzero => ?_⟩
  · rw [if_pos ⟨hpos, hprop, hne⟩]
    have hga : (st.setAccount
        { acc with balance := acc.balance - tx.fee, nonce := acc.nonce + 1 }).getAccount
          b.header.proposer = .ok prop := by
      rw [getAccount_setAccount_ne st _ b.header.proposer
          (by
            show b.header.proposer ≠ acc.address
            rw [haddr]
            exact fun hh => hne hh.symm)]
      exact hpacc
    rw [hga]
    dsimp only
    constructor
    · intro hple
      rw [if_neg (not_lt.mpr hple)]
      refine ⟨_, rfl, ?_, ?_⟩
      · rw [show tx.fromAddr = acc.address from haddr.symm]
        rw [getAccount_setAccount_ne _ _ acc.address
            (by
              show acc.address ≠ prop.address
              rw [haddr, hpaddr]
              exact hne)]
        exact getAccount_setAccount_self st _
      · rw [show b.header.proposer = prop.address from hpaddr.symm]
        exact getAccount_setAccount_self _ _
    · intro hgt
      rw [if_pos hgt]
      exact ⟨_, rfl⟩
  · rw [if_neg (fun hh => hh.2.2 heq)]
    rw [if_pos ⟨hpos, heq⟩]
    refine ⟨_, rfl, ?_⟩
    rw [show tx.fromAddr = acc.address from haddr.symm]
    rw [show acc.balance - tx.fee + tx.fee = acc.balance from Nat.sub_add_cancel hb]
    exact getAccount_setAccount_self st _
  · rw [if_neg (fun hh => by rw [hzero] at hh; exact absurd hh.1 (by norm_num))]
    rw [if_neg (fun hh => by rw [hzero] at hh; exact absurd hh.1 (by norm_num))]
    refine ⟨_, rfl, ?_⟩
    rw [show tx.fromAddr = acc.address from haddr.symm]
    rw [show acc.balance - tx.fee = acc.balance from by rw [hzero]; exact Nat.sub_zero _]
    exact getAccount_setAccount_self st _

/-- The C2 witness state: two distinct funded accounts. -/
def stC2 : StateDB := (emptyState.setAccount ⟨"aa", 10, 0⟩).setAccount ⟨"bb", 5, 0⟩

/-- The C2 witness transaction: fee 3 from account aa. -/
def txC2 : Tx := ⟨"", "transfer", "aa", 0, 3, 0, .rawBytes [], ""⟩

/-- The C2 witness block: proposer bb. -/
def blkC2 : Block := ⟨⟨1, "", "", "", 0, "bb", ""⟩, [], "", ""⟩

theorem applyTx_fee_nonce_witness :
    ∃ st1, applyFeeNonce blkC2 txC2 stC2 = (.ok (), st1) ∧
      st1.getAccount "aa" = .ok ⟨"aa", 7, 1⟩ ∧
      st1.getAccount "bb" = .ok ⟨"bb", 8, 0⟩ :=
  ((applyTx_fee_nonce blkC2 txC2 stC2 ⟨"aa", 10, 0⟩ ⟨"bb", 5, 0⟩ rfl rfl rfl
      (by decide) (by decide)).1
    (by decide) (by decide) (by decide) rfl rfl).1 (by decide)

/-! ### Claim C6 -/

theorem sumCheckGo_isSome (T : Nat) (l : List (String × Nat)) :
    ∀ tot, tot ≤ T →
      ((sumCheckGo T l tot).isSome ↔ tot + (l.map Prod.snd).sum ≤ T) := by
  induction l with
  | nil =>
    intro tot h
    simpa [sumCheckGo] using h
  | cons e rest ih =>
    intro tot h
    simp only [sumCheckGo]
    by_cases hc : e.2 > T - tot
    · rw [if_pos hc]
      simp only [Option.isSome_none, Bool.false_eq_true, false_iff, List.map_cons,
        List.sum_cons]
      omega
    · rw [if_neg hc]
      have h2 : tot + e.2 ≤ T := by omega
      rw [ih (tot + e.2) h2]
      simp only [List.map_cons, List.sum_cons]
      omega

theorem distribute_getSession (l : List (String × Nat)) :
    ∀ (st : StateDB) (sid : String),
      ((distribute l st).2).getSession sid = st.getSession sid := by
  induction l with
  | nil => intro st sid; rfl
  | cons e rest ih =>
    intro st sid
    unfold distribute
    cases h : st.getAccount e.1 with
    | error er => rfl
    | ok acc =>
      rw [ih]
      exact getSession_setAccount st _ sid

theorem distribute_spec (l : List (String × Nat)) :
    ∀ st : StateDB,
      (l.map Prod.fst).Nodup →
      (∀ pr ∈ l, ∃ a : Account, st.getAccount pr.1 = .ok a ∧ a.address = pr.1) →
      ∃ st1, distribute l st = (.ok (), st1) ∧
        (∀ q : String, q ∉ l.map Prod.fst → st1.getAccount q = st.getAccount q) ∧
        (∀ pr ∈ l, ∀ a : Account, st.getAccount pr.1 = .ok a →
          st1.getAccount pr.1 = .ok ⟨a.address, uadd a.balance pr.2, a.nonce⟩) := by
  induction l with
  | nil =>
    intro st _ _
    exact ⟨st, rfl, fun q _ => rfl, fun pr hpr => absurd hpr (List.not_mem_nil pr)⟩
  | cons e rest ih =>
    intro st hnd hacc
    rw [List.map_cons, List.nodup_cons] at hnd
    obtain ⟨a0, ha0, haddr0⟩ := hacc e (List.mem_cons_self e rest)
    have hacc2 : ∀ pr ∈ rest,
        ∃ a, (st.setAccount ⟨a0.address, uadd a0.balance e.2, a0.nonce⟩).getAccount pr.1 =
          .ok a ∧ a.address = pr.1 := by
      intro pr hpr
      obtain ⟨a, ha, haddr⟩ := hacc pr (List.mem_cons_of_mem e hpr)
      refine ⟨a, ?_, haddr⟩
      rw [getAccount_setAccount_ne st _ pr.1 (by
        show pr.1 ≠ a0.address
        rw [haddr0]
        exact fun hh => hnd.1 (hh ▸ List.mem_map_of_mem Prod.fst hpr))]
      exact ha
    obtain ⟨st1, hd1, hpres, hcred⟩ :=
      ih (st.setAccount ⟨a0.address, uadd a0.balance e.2, a0.nonce⟩) hnd.2 hacc2
    refine ⟨st1, ?_, ?_, ?_⟩
    · unfold distribute
      rw [ha0]
      exact hd1
    · intro q hq
      rw [List.map_cons, List.mem_cons] at hq
      push_neg at hq
      rw [hpres q hq.2]
      rw [getAccount_setAccount_ne st _ q (by
        show q ≠ a0.address
        rw [haddr0]
        exact hq.1)]
    · intro pr hpr a ha
      rcases List.mem_cons.mp hpr with h1 | h2
      · rw [h1] at ha ⊢
        have ha' : a0 = a := Except.ok.inj (ha0.symm.trans ha)
        subst ha'
        rw [hpres e.1 hnd.1]
        rw [show e.1 = a0.address from haddr0.symm]
        exact getAccount_setAccount_self st _
      · have ha2 : (st.setAccount
            ⟨a0.address, uadd a0.balance e.2, a0.nonce⟩).getAccount pr.1 = .ok a := by
          rw [getAccount_setAccount_ne st _ pr.1 (by
            show pr.1 ≠ a0.address
            rw [haddr0]
            exact fun hh => hnd.1 (hh ▸ List.mem_map_of_mem Prod.fst h2))]
          exact ha
        exact hcred pr h2 a ha2

/-- C6 as amended: on an existing open session, the handler credits every
outcome recipient and closes the session exactly when the sum of the
rewards is at most the wrapping uint64 product of stakes and player
count (stakes times players reduced mod 2 to the 64); otherwise it
rejects and the state, including the still-open session, is unchanged. -/
theorem handleSessionResult_spec (b : Block) (tx : Tx) (st : StateDB)
    (sid : String) (outcome : List (String × Nat)) (sess : Session)
    (hp : tx.payload = .sessionResult sid outcome)
    (hs : st.getSession sid = .ok sess)
    (hsid : sess.id = sid)
    (hopen : sess.status = "open")
    (hnd : (outcome.map Prod.fst).Nodup)
    (hacc : ∀ pr ∈ outcome,
      ∃ a : Account, st.getAccount pr.1 = .ok a ∧ a.address = pr.1) :
    ((outcome.map Prod.snd).sum ≤ umul sess.stakes sess.players.length →
      ∃ st1, handleSessionResult b tx st = (.ok (), st1) ∧
        st1.getSession sid = .ok { sess with status := "closed", outcome := outcome,
                                             closedAt := b.header.timestamp } ∧
        (∀ pr ∈ outcome, ∀ a : Account, st.getAccount pr.1 = .ok a →
          st1.getAccount pr.1 = .ok ⟨a.address, uadd a.balance pr.2, a.nonce⟩)) ∧
    (umul sess.stakes sess.players.length < (outcome.map Prod.snd).sum →
      handleSessionResult b tx st =
        (.error (.other "rewards exceed total stakes"), st)) := by
  unfold handleSessionResult
  rw [hp]
  dsimp only
  rw [hs]
  dsimp only
  rw [if_neg (not_not_intro hopen)]
  constructor
  · intro hsum
    have hck : (sumCheckGo (umul sess.stakes sess.players.length) outcome 0).isSome :=
      (sumCheckGo_isSome _ outcome 0 (Nat.zero_le _)).mpr (by simpa using hsum)
    obtain ⟨tot, htot⟩ := Option.isSome_iff_exists.mp hck
    rw [htot]
    dsimp only
    obtain ⟨st1, hd1, hpres, hcred⟩ := distribute_spec outcome st hnd hacc
    rw [hd1]
    dsimp only
    refine ⟨_, rfl, ?_, ?_⟩
    · rw [← hsid]
      exact getSession_setSession_self st1 _
    · intro pr hpr a ha
      rw [getAccount_setSession]
      exact hcred pr hpr a ha
  · intro hgt
    have hck : ¬ (sumCheckGo (umul sess.stakes sess.players.length) outcome 0).isSome := by
      rw [sumCheckGo_isSome _ outcome 0 (Nat.zero_le _)]
      omega
    rw [Option.not_isSome_iff_eq_none] at hck
    rw [hck]

/-- A session whose unbounded stakes-times-players product overflows
uint64: stakes 2 to the 63 with two players. -/
def sessC6 : Session := ⟨"m", "", "", ["a", "b"], 2 ^ 63, "open", [], 0, 0⟩

/-- State holding only the overflowing session. -/
def stC6 : StateDB := emptyState.setSession sessC6

/-- A session_result paying a single token to one recipient. -/
def txC6 : Tx := ⟨"", "session_result", "aa", 0, 0, 0, .sessionResult "m" [("a", 1)], ""⟩

/-- An arbitrary enclosing block for the C6 scenario. -/
def blkC6 : Block := ⟨⟨1, "", "", "", 0, "", ""⟩, [], "", ""⟩

theorem sessionResult_unbounded_bound_counterexample :
    (1 : Nat) ≤ 2 ^ 63 * 2 ∧
    stC6.getSession "m" = .ok sessC6 ∧
    sessC6.status = "open" ∧
    handleSessionResult blkC6 txC6 stC6 =
      (.error (.other "rewards exceed total stakes"), stC6) :=
  ⟨by norm_num, rfl, rfl, rfl⟩

/-- A small open session within the uint64 range for the C6 witness. -/
def sessC6w : Session := ⟨"m", "", "", ["a", "b"], 10, "open", [], 0, 0⟩

/-- Witness state: one funded recipient account plus the session. -/
def stC6w : StateDB := (emptyState.setAccount ⟨"a", 5, 0⟩).setSession sessC6w

/-- Witness transaction: one 15-token reward within the 20-token bound. -/
def txC6w : Tx := ⟨"", "session_result", "x", 0, 0, 0, .sessionResult "m" [("a", 15)], ""⟩

theorem handleSessionResult_spec_witness :
    ∃ st1, handleSessionResult blkC6 txC6w stC6w = (.ok (), st1) ∧
      st1.getSession "m" = .ok { sessC6w with status := "closed", outcome := [("a", 15)],
                                              closedAt := 0 } ∧
      st1.getAccount "a" = .ok ⟨"a", 20, 0⟩ := by
  obtain ⟨st1, h1, h2, h3⟩ :=
    (handleSessionResult_spec blkC6 txC6w stC6w "m" [("a", 15)] sessC6w rfl rfl rfl rfl
      (by decide)
      (by
        intro pr hpr
        rw [List.mem_singleton] at hpr
        subst hpr
        exact ⟨⟨"a", 5, 0⟩, rfl, rfl⟩)).1 (by decide)
  exact ⟨st1, h1, h2, h3 ("a", 15) (List.mem_singleton.mpr rfl) ⟨"a", 5, 0⟩ rfl⟩

/-! ### Claim C7 -/

/-- C7: with a tip cached, AddBlock rejects any block whose height is not
tip height plus one or whose previous hash is not the tip hash, before
any store write; otherwise it persists the block data, the height index
entry and the tip pointer through the single atomic CommitBlock batch
and advances the cached tip. -/
theorem addBlock_linkage (bc : Blockchain) (t b : Block)
    (htip : bc.tip = some t) (hh : bc.height = t.header.height) :
    ((b.header.height ≠ t.header.height + 1 ∨ b.header.prevHash ≠ t.hash) →
       ∃ e, bc.addBlock b = .error e) ∧
    (b.header.height = t.header.height + 1 → b.header.prevHash = t.hash →
       bc.addBlock b = .ok { store := bc.store.commitBlock b, tip := some b,
                             height := b.header.height } ∧
       bc.store.commitBlock b =
         ⟨mapInsert b.hash b bc.store.byHash,
          hInsert b.header.height b.hash bc.store.byHeight, b.hash⟩) := by
  unfold Blockchain.addBlock
  rw [htip]
  dsimp only
  constructor
  · intro hor
    by_cases h1 : b.header.height = bc.height + 1
    · rw [if_neg (not_not_intro h1)]
      have h2 : b.header.prevHash ≠ t.hash := by
        rcases hor with ho | ho
        · exact absurd (h1.trans (by rw [hh])) ho
        · exact ho
      rw [if_pos h2]
      exact ⟨_, rfl⟩
    · rw [if_pos h1]
      exact ⟨_, rfl⟩
  · intro hht hpv
    rw [if_neg (not_not_intro (by rw [hh]; exact hht)), if_neg (not_not_intro hpv)]
    exact ⟨rfl, rfl⟩

/-- The tip block of the C7 witness chain. -/
def tW : Block := ⟨⟨1, "", "", "", 0, "", ""⟩, [], "ht", ""⟩

/-- The C7 witness chain at height 1. -/
def bcW : Blockchain := ⟨⟨[("ht", tW)], [(1, "ht")], "ht"⟩, some tW, 1⟩

/-- A correctly linked successor block. -/
def bGood : Block := ⟨⟨2, "ht", "", "", 0, "", ""⟩, [], "hb", ""⟩

/-- A block with a gap in height. -/
def bBad : Block := ⟨⟨5, "ht", "", "", 0, "", ""⟩, [], "hc", ""⟩

theorem addBlock_linkage_witness :
    (∃ e, bcW.addBlock bBad = .error e) ∧
    bcW.addBlock bGood = .ok { store := bcW.store.commitBlock bGood, tip := some bGood,
                               height := 2 } :=
  ⟨(addBlock_linkage bcW tW bBad rfl rfl).1 (Or.inl (by decide)),
   ((addBlock_linkage bcW tW bGood rfl rfl).2 rfl rfl).1⟩

/-! ### Claim C8 -/

/-- An unsigned valid transfer used to fill the mempool. -/
def txC8base : Tx := ⟨"", "transfer", zeros64, 0, 0, 0, .transfer zeros64 1, ""⟩

/-- The signed C8 transaction, signed the way Transaction.Sign signs. -/
def txC8 : Tx :=
  { txC8base with id := txC8base.hash, signature := mkSig zeros64 txC8base.hash }

/-- C8: the code bug at the failing input. After one successful Add,
Pending(0) returns the first transaction instead of the empty list the
doc comment (up to n) and the spec promise: the length check runs only
after the first append. -/
theorem pending_zero_returns_first :
    ∃ m : Mempool, addSeq emptyMempool [(txC8, 0)] = some m ∧
      m.pending 0 = [txC8] ∧ m.pending 0 ≠ [] :=
  ⟨⟨[(txC8.id, txC8)], [txC8.id]⟩, rfl, rfl, List.cons_ne_nil _ _⟩

/-! ### Claim C9 -/

/-- An unsigned valid transfer for the C9 scenario. -/
def txC9base : Tx := ⟨"", "transfer", zeros64, 0, 0, 0, .transfer zeros64 1, ""⟩

/-- A transaction whose stored id differs from the hash of its canonical
signing body while its signature over that recomputed hash is valid. -/
def txC9 : Tx :=
  { txC9base with id := "bogus", signature := mkSig zeros64 txC9base.hash }

/-- C9: Transaction.Verify never inspects the ID field: changing the id
never changes the verdict, and the concrete transaction txC9 with a
bogus id and a valid signature over the recomputed hash verifies. -/
theorem verify_ignores_id :
    (∀ (t : Tx) (i : String), Tx.verify { t with id := i } = t.verify) ∧
    txC9.verify = .ok () ∧ txC9.id ≠ txC9.hash :=
  ⟨fun t i => rfl, rfl, by decide⟩

/-! ### Claim C10 -/

/-- The C10 state: one account with balance 5. -/
def stC10 : StateDB := emptyState.setAccount ⟨"aa", 5, 0⟩

/-- A self-transfer of amount zero. -/
def txC10z : Tx := ⟨"", "transfer", "aa", 0, 0, 0, .transfer "aa" 0, ""⟩

/-- An arbitrary enclosing block for the C10 scenario. -/
def blkC10 : Block := ⟨⟨1, "", "", "", 0, "", ""⟩, [], "", ""⟩

theorem selfTransfer_zero_amount_counterexample :
    (0 : Nat) ≤ 5 ∧
    stC10.getAccount "aa" = .ok ⟨"aa", 5, 0⟩ ∧
    handleTransfer blkC10 txC10z stC10 =
      (.error (.other "transfer amount must be positive"), stC10) :=
  ⟨by norm_num, rfl, rfl⟩

/-- C10 as amended: a transfer whose recipient equals the sender succeeds
whenever the amount is positive and the sender balance covers it, and
leaves the balance unchanged: the debit is buffered before the recipient
load, which reads back through the buffer, so the credit lands on the
already-debited record. -/
theorem selfTransfer_preserves_balance (b : Block) (tx : Tx) (st : StateDB)
    (amount : Nat) (acc : Account)
    (hp : tx.payload = .transfer tx.fromAddr amount)
    (hne : tx.fromAddr ≠ "")
    (hpos : 0 < amount)
    (hacc : st.getAccount tx.fromAddr = .ok acc)
    (haddr : acc.address = tx.fromAddr)
    (hbal : amount ≤ acc.balance)
    (hu : acc.balance ≤ u64max) :
    ∃ st1, handleTransfer b tx st = (.ok (), st1) ∧
      st1.getAccount tx.fromAddr = .ok acc := by
  unfold handleTransfer
  rw [hp]
  dsimp only
  rw [if_neg (Nat.pos_iff_ne_zero.mp hpos), if_neg hne, hacc]
  dsimp only
  rw [if_neg (not_lt.mpr hbal)]
  have hga : (st.setAccount { acc with balance := acc.balance - amount }).getAccount
      tx.fromAddr = .ok { acc with balance := acc.balance - amount } := by
    rw [show tx.fromAddr = acc.address from haddr.symm]
    exact getAccount_setAccount_self st _
  rw [hga]
  dsimp only
  refine ⟨_, rfl, ?_⟩
  have hlt : acc.balance < u64 := lt_of_le_of_lt hu (by norm_num [u64max, u64])
  have hwrap : uadd (acc.balance - amount) amount = acc.balance := by
    unfold uadd
    rw [Nat.sub_add_cancel hbal]
    exact Nat.mod_eq_of_lt hlt
  rw [show tx.fromAddr = acc.address from haddr.symm, hwrap]
  exact getAccount_setAccount_self
      (st.setAccount { acc with balance := acc.balance - amount })
      ⟨acc.address, acc.balance, acc.nonce⟩

/-- A positive self-transfer for the C10 witness. -/
def txC10w : Tx := ⟨"", "transfer", "aa", 0, 0, 0, .transfer "aa" 3, ""⟩

theorem selfTransfer_preserves_balance_witness :
    ∃ st1, handleTransfer blkC10 txC10w stC10 = (.ok (), st1) ∧
      st1.getAccount "aa" = .ok ⟨"aa", 5, 0⟩ :=
  selfTransfer_preserves_balance blkC10 txC10w stC10 3 ⟨"aa", 5, 0⟩ rfl (by decide)
    (by norm_num) rfl rfl (by norm_num) (by decide)

/-! ### Raw write operations (the set and del entry points of the store) -/

/-- One raw buffer operation: a set or a delete, as issued by the typed
accessors of storage/statedb.go. -/
inductive WOp where
  | set (k : String) (v : Bytes)
  | del (k : String)
deriving Repr, DecidableEq

/-- The key an operation touches. -/
def wopKey : WOp → String
  | .set k _ => k
  | .del k => k

/-- Apply one raw operation to the store. -/
def applyWOp (s : StateDB) : WOp → StateDB
  | .set k v => s.rawSet k v
  | .del k => s.rawDel k

/-- Apply a sequence of raw operations in order. -/
def applyWOps (s : StateDB) (ops : List WOp) : StateDB := ops.foldl applyWOp s

theorem applyWOp_db (s : StateDB) (op : WOp) : (applyWOp s op).db = s.db := by
  cases op <;> rfl

theorem applyWOp_snapshots (s : StateDB) (op : WOp) :
    (applyWOp s op).snapshots = s.snapshots := by
  cases op <;> rfl

theorem applyWOps_db (ops : List WOp) : ∀ s : StateDB, (applyWOps s ops).db = s.db := by
  induction ops with
  | nil => intro s; rfl
  | cons op rest ih =>
    intro s
    rw [show applyWOps s (op :: rest) = applyWOps (applyWOp s op) rest from rfl,
        ih (applyWOp s op), applyWOp_db]

theorem applyWOps_snapshots (ops : List WOp) :
    ∀ s : StateDB, (applyWOps s ops).snapshots = s.snapshots := by
  induction ops with
  | nil => intro s; rfl
  | cons op rest ih =>
    intro s
    rw [show applyWOps s (op :: rest) = applyWOps (applyWOp s op) rest from rfl,
        ih (applyWOp s op), applyWOp_snapshots]

/-! ### Claim C5 -/

theorem revert_fails_iff (s : StateDB) (id : Int) :
    (∃ e, (s.revertToSnapshot id).1 = .error e) ↔
      (id < 0 ∨ (s.snapshots.length : Int) ≤ id) := by
  unfold StateDB.revertToSnapshot
  by_cases h : 0 ≤ id ∧ id < s.snapshots.length
  · rw [dif_pos h]
    constructor
    · rintro ⟨e, he⟩
      exact absurd he (by simp)
    · intro hor
      exact absurd hor (by omega)
  · rw [dif_neg h]
    constructor
    · intro _
      push_neg at h
      omega
    · intro _
      exact ⟨.other "invalid snapshot id", rfl⟩

/-- C5: for every snapshot id returned by Snapshot and every subsequent
sequence of raw set and delete operations, RevertToSnapshot succeeds,
the resulting ComputeRoot equals the root observed right after the
snapshot, only the snapshots below the id remain on the stack, and
RevertToSnapshot fails exactly on ids outside the current stack range. -/
theorem snapshot_revert_law (st : StateDB) (ops : List WOp) :
    ((applyWOps ((st.snapshot).2) ops).revertToSnapshot (st.snapshot).1).1 = .ok () ∧
    (((applyWOps ((st.snapshot).2) ops).revertToSnapshot (st.snapshot).1).2).computeRoot =
      ((st.snapshot).2).computeRoot ∧
    (((applyWOps ((st.snapshot).2) ops).revertToSnapshot (st.snapshot).1).2).snapshots =
      st.snapshots ∧
    (∀ id : Int,
      (∃ e, ((applyWOps ((st.snapshot).2) ops).revertToSnapshot id).1 = .error e) ↔
        (id < 0 ∨ ((applyWOps ((st.snapshot).2) ops).snapshots.length : Int) ≤ id)) := by
  have hdb : (applyWOps ((st.snapshot).2) ops).db = st.db := applyWOps_db ops _
  have hsn : (applyWOps ((st.snapshot).2) ops).snapshots =
      (st.snapshots ++ [⟨st.dirty, st.deleted⟩]) ++ [] := by
    rw [applyWOps_snapshots]
    simp [StateDB.snapshot]
  have hrev := revert_after st (applyWOps ((st.snapshot).2) ops) [] hdb hsn
  have hid : (st.snapshot).1 = (st.snapshots.length : Int) := rfl
  refine ⟨?_, ?_, ?_, fun id => revert_fails_iff _ id⟩
  · rw [hid, hrev]
  · rw [hid, hrev]
    rfl
  · rw [hid, hrev]


/-! ### Claim C1 -/

/-- The first operation of a sequence touching a given key. -/
def findWOp (ops : List WOp) (k : String) : Option WOp :=
  ops.find? (fun op => wopKey op == k)

theorem applyWOps_dirty_lookup (ops : List WOp) (k : String) :
    ∀ s : StateDB, (ops.map wopKey).Nodup →
      mapLookup k (applyWOps s ops).dirty =
        (match findWOp ops k with
         | some (.set _ v) => some v
         | some (.del _) => none
         | none => mapLookup k s.dirty) := by
  induction ops with
  | nil => intro s _; rfl
  | cons op rest ih =>
    intro s h
    rw [List.map_cons, List.nodup_cons] at h
    by_cases hk : wopKey op = k
    · have hf : findWOp (op :: rest) k = some op := by
        simp [findWOp, List.find?_cons, hk]
      have hfr : findWOp rest k = none := by
        simp only [findWOp]
        rw [List.find?_eq_none]
        intro x hx
        simp only [beq_iff_eq]
        intro hxk
        exact h.1 (by rw [hk, ← hxk]; exact List.mem_map_of_mem wopKey hx)
      have hih := ih (applyWOp s op) h.2
      rw [show applyWOps s (op :: rest) = applyWOps (applyWOp s op) rest from rfl,
          hih, hfr, hf]
      cases op with
      | set k0 v =>
        have hk0 : k0 = k := hk
        subst hk0
        simp [applyWOp, StateDB.rawSet, mapLookup_mapInsert]
      | del k0 =>
        have hk0 : k0 = k := hk
        subst hk0
        simp [applyWOp, StateDB.rawDel, mapLookup_mapErase]
    · have hf : findWOp (op :: rest) k = findWOp rest k := by
        simp [findWOp, List.find?_cons, hk]
      have hih := ih (applyWOp s op) h.2
      rw [show applyWOps s (op :: rest) = applyWOps (applyWOp s op) rest from rfl,
          hih, hf]
      cases hfind : findWOp rest k with
      | some op2 => cases op2 <;> rfl
      | none =>
        cases op with
        | set k0 v =>
          have hne : ¬ (k0 = k) := hk
          simp [applyWOp, StateDB.rawSet, mapLookup_mapInsert, hne]
        | del k0 =>
          have hne : ¬ (k0 = k) := hk
          simp [applyWOp, StateDB.rawDel, mapLookup_mapErase, hne]

theorem applyWOps_deleted_mem (ops : List WOp) (k : String) :
    ∀ s : StateDB, (ops.map wopKey).Nodup →
      ((k ∈ (applyWOps s ops).deleted) ↔
        (match findWOp ops k with
         | some (.set _ _) => False
         | some (.del _) => True
         | none => k ∈ s.deleted)) := by
  induction ops with
  | nil => intro s _; exact Iff.rfl
  | cons op rest ih =>
    intro s h
    rw [List.map_cons, List.nodup_cons] at h
    by_cases hk : wopKey op = k
    · have hf : findWOp (op :: rest) k = some op := by
        simp [findWOp, List.find?_cons, hk]
      have hfr : findWOp rest k = none := by
        simp only [findWOp]
        rw [List.find?_eq_none]
        intro x hx
        simp only [beq_iff_eq]
        intro hxk
        exact h.1 (by rw [hk, ← hxk]; exact List.mem_map_of_mem wopKey hx)
      have hih := ih (applyWOp s op) h.2
      rw [show applyWOps s (op :: rest) = applyWOps (applyWOp s op) rest from rfl,
          hih, hfr, hf]
      cases op with
      | set k0 v =>
        have hk0 : k0 = k := hk
        subst hk0
        simp [applyWOp, StateDB.rawSet, List.mem_filter]
      | del k0 =>
        have hk0 : k0 = k := hk
        subst hk0
        simp [applyWOp, StateDB.rawDel, setInsert]
        by_cases hm : k0 ∈ s.deleted <;> simp [hm]
    · have hf : findWOp (op :: rest) k = findWOp rest k := by
        simp [findWOp, List.find?_cons, hk]
      have hih := ih (applyWOp s op) h.2
      rw [show applyWOps s (op :: rest) = applyWOps (applyWOp s op) rest from rfl,
          hih, hf]
      cases hfind : findWOp rest k with
      | some op2 => cases op2 <;> exact Iff.rfl
      | none =>
        cases op with
        | set k0 v =>
          have hne : ¬ (k = k0) := fun hh => hk hh.symm
          simp [applyWOp, StateDB.rawSet, List.mem_filter, hne]
        | del k0 =>
          have hne : ¬ (k = k0) := fun hh => hk hh.symm
          simp only [applyWOp, StateDB.rawDel, setInsert]
          by_cases hm : k0 ∈ s.deleted
          · simp [hm]
          · simp [hm, List.mem_cons, hne]

theorem wop_uniq (l : List WOp) (h : (l.map wopKey).Nodup) :
    ∀ a ∈ l, ∀ b ∈ l, wopKey a = wopKey b → a = b := by
  induction l with
  | nil => intro a ha; exact absurd ha (List.not_mem_nil a)
  | cons x t ih =>
    rw [List.map_cons, List.nodup_cons] at h
    intro a ha b hb hab
    rcases List.mem_cons.mp ha with ha1 | ha2 <;>
      rcases List.mem_cons.mp hb with hb1 | hb2
    · rw [ha1, hb1]
    · subst ha1
      exact absurd (hab ▸ List.mem_map_of_mem wopKey hb2) h.1
    · subst hb1
      exact absurd (hab ▸ List.mem_map_of_mem wopKey ha2) h.1
    · exact ih h.2 a ha2 b hb2 hab

theorem findWOp_perm (l1 l2 : List WOp) (hp : l1.Perm l2)
    (h : (l1.map wopKey).Nodup) (k : String) : findWOp l1 k = findWOp l2 k := by
  have h2 : (l2.map wopKey).Nodup := ((hp.map wopKey).nodup_iff).mp h
  cases hf : findWOp l1 k with
  | some op =>
    have hpop := List.find?_some hf
    have hmem := List.mem_of_find?_eq_some hf
    have hmem2 : op ∈ l2 := hp.mem_iff.mp hmem
    cases hf2 : findWOp l2 k with
    | none =>
      rw [findWOp, List.find?_eq_none] at hf2
      exact absurd hpop (hf2 op hmem2)
    | some op2 =>
      have hpop2 := List.find?_some hf2
      have hmem2b := List.mem_of_find?_eq_some hf2
      have hu : op = op2 := by
        apply wop_uniq l2 h2 op hmem2 op2 hmem2b
        simp only [beq_iff_eq] at hpop hpop2
        rw [hpop, hpop2]
      rw [hu]
  | none =>
    rw [findWOp, List.find?_eq_none] at hf
    cases hf2 : findWOp l2 k with
    | none => rfl
    | some op2 =>
      have hmem2 := List.mem_of_find?_eq_some hf2
      exact absurd (List.find?_some hf2) (hf op2 (hp.mem_iff.mpr hmem2))

/-- The value the last write in a list leaves under a key (the semantics
of filling a Go map by iterating a slice). -/
def lastVal (k : String) : List (String × Bytes) → Option Bytes
  | [] => none
  | e :: t =>
    match lastVal k t with
    | some v => some v
    | none => if e.1 = k then some e.2 else none

theorem lookup_fold_insert (l : List (String × Bytes)) :
    ∀ (init : List (String × Bytes)) (k : String),
      mapLookup k (l.foldl (fun m e => mapInsert e.1 e.2 m) init) =
        (match lastVal k l with
         | some v => some v
         | none => mapLookup k init) := by
  induction l with
  | nil => intro init k; rfl
  | cons e t ih =>
    intro init k
    rw [List.foldl_cons, ih, lastVal]
    cases hlv : lastVal k t with
    | some v => rfl
    | none =>
      rw [mapLookup_mapInsert]
      by_cases he : e.1 = k <;> simp [he, eq_comm]

theorem lookup_fold_erase (del : List String) :
    ∀ (init : List (String × Bytes)) (k : String),
      mapLookup k (del.foldl (fun m kk => mapErase kk m) init) =
        if k ∈ del then none else mapLookup k init := by
  induction del with
  | nil => intro init k; simp
  | cons d t ih =>
    intro init k
    rw [List.foldl_cons, ih, mapLookup_mapErase]
    by_cases h1 : k ∈ t <;> by_cases h2 : d = k <;>
      simp [h1, h2, List.mem_cons, eq_comm]

theorem lastVal_eq_none_iff (k : String) (l : List (String × Bytes)) :
    lastVal k l = none ↔ k ∉ l.map Prod.fst := by
  induction l with
  | nil => simp [lastVal]
  | cons e t ih =>
    simp only [lastVal]
    cases hlv : lastVal k t with
    | some v =>
      have hkt : k ∈ t.map Prod.fst := by
        by_contra hn
        rw [ih.mpr hn] at hlv
        exact absurd hlv (by simp)
      simp only [List.map_cons, List.mem_cons]
      constructor
      · intro h0
        exact absurd h0 (by simp)
      · intro h0
        exact absurd (Or.inr hkt) h0
    | none =>
      have hkt : k ∉ t.map Prod.fst := ih.mp hlv
      by_cases he : e.1 = k
      · simp [he, hkt, eq_comm]
      · have he2 : ¬ k = e.1 := fun hh => he hh.symm
        simp [he, hkt, he2]

theorem lastVal_eq_mapLookup (l : List (String × Bytes))
    (h : (l.map Prod.fst).Nodup) (k : String) : lastVal k l = mapLookup k l := by
  induction l with
  | nil => rfl
  | cons e t ih =>
    rw [List.map_cons, List.nodup_cons] at h
    rw [lastVal, mapLookup]
    by_cases he : e.1 = k
    · have hkt : k ∉ t.map Prod.fst := he ▸ h.1
      have : lastVal k t = none := (lastVal_eq_none_iff k t).mpr hkt
      rw [this]
      simp [he]
    · rw [ih h.2]
      cases mapLookup k t with
      | some v => simp [he]
      | none => simp [he]

theorem keys_filter {α : Type} (m : List (String × α)) (k : String) :
    (m.filter (fun e => e.1 ≠ k)).map Prod.fst =
      (m.map Prod.fst).filter (fun x => x ≠ k) := by
  induction m with
  | nil => rfl
  | cons e t ih =>
    by_cases he : e.1 = k
    · rw [List.filter_cons_of_neg (by simp [he]), List.map_cons,
          List.filter_cons_of_neg (by simp [he])]
      exact ih
    · rw [List.filter_cons_of_pos (by simp [he]), List.map_cons, List.map_cons,
          List.filter_cons_of_pos (by simp [he])]
      rw [ih]

theorem nodup_mapInsert {α : Type} (k : String) (v : α) (m : List (String × α))
    (h : (m.map Prod.fst).Nodup) : ((mapInsert k v m).map Prod.fst).Nodup := by
  rw [mapInsert, List.map_cons, List.nodup_cons, keys_filter]
  constructor
  · intro hmem
    rcases List.mem_filter.mp hmem with ⟨_, hne⟩
    simp at hne
  · exact h.filter _

theorem nodup_mapErase {α : Type} (k : String) (m : List (String × α))
    (h : (m.map Prod.fst).Nodup) : ((mapErase k m).map Prod.fst).Nodup := by
  rw [mapErase, keys_filter]
  exact h.filter _

theorem foldl_pres {β : Type} (P : List (String × Bytes) → Prop)
    (f : List (String × Bytes) → β → List (String × Bytes))
    (hf : ∀ m x, P m → P (f m x)) :
    ∀ (l : List β) (m : List (String × Bytes)), P m → P (l.foldl f m) := by
  intro l
  induction l with
  | nil => intro m hm; exact hm
  | cons x t ih =>
    intro m hm
    rw [List.foldl_cons]
    exact ih _ (hf m x hm)

theorem mergedState_nodup (db d : List (String × Bytes)) (del : List String) :
    ((mergedState db d del).map Prod.fst).Nodup := by
  unfold mergedState
  apply foldl_pres _ _ (fun m kk hm => nodup_mapErase kk m hm)
  apply foldl_pres _ _ (fun m e hm => nodup_mapInsert e.1 e.2 m hm)
  apply foldl_pres (fun m => (m.map Prod.fst).Nodup)
      _ (fun acc p hm => foldl_pres _ _ (fun m e hmm => nodup_mapInsert e.1 e.2 m hmm) _ acc hm)
  exact List.nodup_nil

theorem mergedState_nil (d : List (String × Bytes)) (del : List String) :
    mergedState [] d del =
      del.foldl (fun m kk => mapErase kk m)
        (d.foldl (fun m e => mapInsert e.1 e.2 m) []) := rfl

theorem mergedState_nil_lookup (d : List (String × Bytes)) (del : List String)
    (hd : (d.map Prod.fst).Nodup) (k : String) :
    mapLookup k (mergedState [] d del) =
      if k ∈ del then none else mapLookup k d := by
  rw [mergedState_nil, lookup_fold_erase, lookup_fold_insert,
      lastVal_eq_mapLookup d hd]
  cases mapLookup k d <;> rfl

theorem applyWOps_dirty_nodup (ops : List WOp) :
    ∀ s : StateDB, (s.dirty.map Prod.fst).Nodup →
      (((applyWOps s ops).dirty.map Prod.fst).Nodup) := by
  induction ops with
  | nil => intro s h; exact h
  | cons op rest ih =>
    intro s h
    rw [show applyWOps s (op :: rest) = applyWOps (applyWOp s op) rest from rfl]
    apply ih
    cases op with
    | set k v => exact nodup_mapInsert k v s.dirty h
    | del k => exact nodup_mapErase k s.dirty h

theorem mem_keys_iff_lookup_ne_none {α : Type} (k : String) (m : List (String × α)) :
    k ∈ m.map Prod.fst ↔ mapLookup k m ≠ none := by
  rw [Ne, mapLookup_eq_none_iff, not_not]

theorem flatMap_congr {α β : Type} (l : List α) (f g : α → List β)
    (h : ∀ a ∈ l, f a = g a) : l.flatMap f = l.flatMap g := by
  induction l with
  | nil => rfl
  | cons x t ih =>
    rw [List.flatMap_cons, List.flatMap_cons, h x (List.mem_cons_self x t),
        ih (fun a ha => h a (List.mem_cons_of_mem x ha))]

theorem rootOf_eq_of_lookup_eq (db1 d1 db2 d2 : List (String × Bytes))
    (del1 del2 : List String)
    (h : ∀ k, mapLookup k (mergedState db1 d1 del1) =
              mapLookup k (mergedState db2 d2 del2)) :
    rootOf db1 d1 del1 = rootOf db2 d2 del2 := by
  unfold rootOf
  dsimp only
  haveI hA : IsAntisymm String (fun a b : String => a ≤ b) := ⟨fun a b => le_antisymm⟩
  haveI hT : IsTotal String (fun a b : String => a ≤ b) := ⟨fun a b => le_total a b⟩
  haveI hR : IsTrans String (fun a b : String => a ≤ b) :=
    ⟨fun a b c hab hbc => le_trans hab hbc⟩
  have hnd1 := mergedState_nodup db1 d1 del1
  have hnd2 := mergedState_nodup db2 d2 del2
  have hmem : ∀ k, k ∈ (mergedState db1 d1 del1).map Prod.fst ↔
      k ∈ (mergedState db2 d2 del2).map Prod.fst := by
    intro k
    rw [mem_keys_iff_lookup_ne_none, mem_keys_iff_lookup_ne_none, h k]
  have hperm : List.Perm ((mergedState db1 d1 del1).map Prod.fst)
      ((mergedState db2 d2 del2).map Prod.fst) :=
    (List.perm_ext_iff_of_nodup hnd1 hnd2).mpr hmem
  have hsort : List.insertionSort (fun a b : String => a ≤ b)
        ((mergedState db1 d1 del1).map Prod.fst) =
      List.insertionSort (fun a b : String => a ≤ b)
        ((mergedState db2 d2 del2).map Prod.fst) := by
    have hp2 := ((List.perm_insertionSort (fun a b : String => a ≤ b)
        ((mergedState db1 d1 del1).map Prod.fst)).trans hperm).trans
        (List.perm_insertionSort (fun a b : String => a ≤ b)
          ((mergedState db2 d2 del2).map Prod.fst)).symm
    have hs1 := List.sorted_insertionSort (fun a b : String => a ≤ b)
        ((mergedState db1 d1 del1).map Prod.fst)
    have hs2 := List.sorted_insertionSort (fun a b : String => a ≤ b)
        ((mergedState db2 d2 del2).map Prod.fst)
    exact List.eq_of_perm_of_sorted hp2 hs1 hs2
  rw [hsort]
  congr 1
  apply flatMap_congr
  intro k hk
  rw [h k]

/-- C1: ComputeRoot is a pure function of the observable state: applying
the same raw set and delete operations, touching pairwise distinct keys,
in any permutation to the empty state yields the same ComputeRoot, and
the root is a 64-character lowercase-hex string. -/
theorem computeRoot_reorder (ops1 ops2 : List WOp)
    (hnd : (ops1.map wopKey).Nodup) (hperm : ops1.Perm ops2) :
    (applyWOps emptyState ops1).computeRoot = (applyWOps emptyState ops2).computeRoot ∧
    ((applyWOps emptyState ops1).computeRoot).length = 64 ∧
    (∀ c ∈ ((applyWOps emptyState ops1).computeRoot).data, c ∈ hexChars) := by
  have hnd2 : (ops2.map wopKey).Nodup := ((hperm.map wopKey).nodup_iff).mp hnd
  have hdb1 : (applyWOps emptyState ops1).db = [] := applyWOps_db ops1 emptyState
  have hdb2 : (applyWOps emptyState ops2).db = [] := applyWOps_db ops2 emptyState
  have hdn1 : (((applyWOps emptyState ops1).dirty.map Prod.fst).Nodup) :=
    applyWOps_dirty_nodup ops1 emptyState (by simp [emptyState])
  have hdn2 : (((applyWOps emptyState ops2).dirty.map Prod.fst).Nodup) :=
    applyWOps_dirty_nodup ops2 emptyState (by simp [emptyState])
  refine ⟨?_, hashHex_length _, hashHex_chars _⟩
  unfold StateDB.computeRoot
  rw [hdb1, hdb2]
  apply rootOf_eq_of_lookup_eq
  intro k
  rw [mergedState_nil_lookup _ _ hdn1 k, mergedState_nil_lookup _ _ hdn2 k]
  have hL1 := applyWOps_dirty_lookup ops1 k emptyState hnd
  have hL2 := applyWOps_dirty_lookup ops2 k emptyState hnd2
  have hD1 := applyWOps_deleted_mem ops1 k emptyState hnd
  have hD2 := applyWOps_deleted_mem ops2 k emptyState hnd2
  have hfind := findWOp_perm ops1 ops2 hperm hnd k
  rw [hL1, hL2, hfind]
  have hiff : (k ∈ (applyWOps emptyState ops1).deleted) ↔
      (k ∈ (applyWOps emptyState ops2).deleted) := by
    rw [hD1, hD2, hfind]
  exact if_congr hiff rfl rfl

theorem computeRoot_reorder_witness :
    ([WOp.set "a" [1], WOp.del "b"].map wopKey).Nodup ∧
    (applyWOps emptyState [WOp.set "a" [1], WOp.del "b"]).computeRoot =
      (applyWOps emptyState [WOp.del "b", WOp.set "a" [1]]).computeRoot :=
  ⟨by decide,
   (computeRoot_reorder [WOp.set "a" [1], WOp.del "b"]
     [WOp.del "b", WOp.set "a" [1]] (by decide) (by decide)).1⟩

theorem handleBlocks_execFail_continues_witness :
    (executeBlock bX3 ((s3.st.snapshot).2)).1 =
      .error (.other "signature verification failed") ∧
    handleBlocksGo (some (fun _ => .ok ())) true (bX3 :: [bY3]) s3 =
      handleBlocksGo (some (fun _ => .ok ())) true [bY3] s3 :=
  ⟨rfl,
   handleBlocks_execFail_continues (some (fun _ => .ok ())) bX3 [bY3] s3
     (.other "signature verification failed") rfl rfl⟩

end Tolchain

